import Mathlib

/-!
Verification of `google/generativeai/responder.py`.

This file gives a shallow embedding of the module's data model and
operations and proves properties about them.

Python values that flow through the module (JSON-like schema dictionaries,
argument structs, return values) are embedded as the inductive type
`JValue`; a Python `dict` is embedded as an association list of
string keys preserving insertion order, as Python dictionaries do.
The dictionary operations `dlookup` / `derase` / `dset` embed
`d[k]` / `d.pop(k)` key removal / `d[k] = v` (which overwrites in place
when the key is present and appends otherwise).
-/

set_option maxHeartbeats 1000000

namespace Responder

/-- A JSON-like Python value: `None`, `bool`, `int`, `float` is not
distinguished from `int` here (no claim depends on it), `str`, `list`,
and `dict` (association list in insertion order). -/
inductive JValue where
  | null : JValue
  | bool (b : Bool) : JValue
  | int (n : Int) : JValue
  | str (s : String) : JValue
  | arr (elems : List JValue) : JValue
  | obj (kvs : List (String × JValue)) : JValue

/-- `d[k]` without raising: the value at the first occurrence of key `k`. -/
def dlookup {α : Type} (k : String) : List (String × α) → Option α
  | [] => none
  | (k', v) :: rest => if k' = k then some v else dlookup k rest

/-- Key removal, as performed by `d.pop(k)`: drop the entries with key `k`.
On lists with no duplicate keys (every Python dict) this is exactly
Python's single-entry removal. -/
def derase {α : Type} (k : String) (l : List (String × α)) : List (String × α) :=
  l.filter (fun kv => kv.1 ≠ k)

/-- `k in d`. -/
def dcontains {α : Type} (k : String) (l : List (String × α)) : Bool :=
  (dlookup k l).isSome

/-- `d[k] = v`: overwrite in place when the key is present (keeping its
position, as Python dicts do), append at the end otherwise. -/
def dset {α : Type} (k : String) (v : α) (l : List (String × α)) : List (String × α) :=
  if dcontains k l then l.map (fun kv => if kv.1 = k then (k, v) else kv)
  else l ++ [(k, v)]

/-! ## `_rename_schema_fields`

The source function copies its input dict, pops `type` / `format` /
`items` / `properties` in that order, re-adds `type_` (upper-cased value),
`format_`, the recursively renamed `items`, and the per-key recursively
renamed `properties`.  `None` inputs pass through.  A `Nat` fuel bounds the
recursion depth (the Python recursion is over nested dicts); `none` models
a raised exception (`AttributeError` on `.copy`/`.upper`/`.items` for
values of the wrong shape) or fuel exhaustion. -/

/-- Python's `str.upper()` (ASCII case mapping suffices for the schema type
names that flow through this module). -/
def pyUpper (s : String) : String :=
  String.mk (s.data.map Char.toUpper)

/-- `type_ = schema.pop("type", None); if type_ is not None: schema["type_"] = type_.upper()`:
the effect on the dict after the pop.  A non-string, non-`None` popped value has
no `.upper` method, which raises. -/
def applyType (t0 : Option JValue) (s : List (String × JValue)) :
    Option (List (String × JValue)) :=
  match t0 with
  | none => some s
  | some .null => some s
  | some (.str u) => some (dset "type_" (.str (pyUpper u)) s)
  | some _ => none

/-- `format_ = schema.pop("format", None); if format_ is not None: schema["format_"] = format_`:
the value is re-attached verbatim, so any non-`None` value is accepted. -/
def applyFormat (f0 : Option JValue) (s : List (String × JValue)) :
    List (String × JValue) :=
  match f0 with
  | none => s
  | some .null => s
  | some v => dset "format_" v s

/-- `items = schema.pop("items", None); if items is not None: schema["items"] = _rename_schema_fields(items)`,
with the recursive call supplied as `rec`. -/
def applyItems (rec : JValue → Option JValue) (i0 : Option JValue)
    (s : List (String × JValue)) : Option (List (String × JValue)) :=
  match i0 with
  | none => some s
  | some .null => some s
  | some v => (rec v).map (fun r => dset "items" r s)

/-- Rename every value of an association list through `rec`, failing when any
single renaming fails — the dict comprehension
`{k: _rename_schema_fields(v) for k, v in properties.items()}`. -/
def mapVals (rec : JValue → Option JValue) :
    List (String × JValue) → Option (List (String × JValue))
  | [] => some []
  | (k, v) :: rest => do
      let v' ← rec v
      let rest' ← mapVals rec rest
      some ((k, v') :: rest')

/-- `properties = schema.pop("properties", None); if properties is not None: ...`:
the popped value must be a dict for `.items()` to exist. -/
def applyProps (rec : JValue → Option JValue) (p0 : Option JValue)
    (s : List (String × JValue)) : Option (List (String × JValue)) :=
  match p0 with
  | none => some s
  | some .null => some s
  | some (.obj pkvs) => (mapVals rec pkvs).map (fun pk => dset "properties" (.obj pk) s)
  | some _ => none

/-- `_rename_schema_fields(schema)`.  Only `None` and dicts are accepted
(anything else fails on `schema.copy()` / `schema.pop("type", None)`). -/
def renameSchemaFields : Nat → JValue → Option JValue
  | 0, _ => none
  | n + 1, v =>
      match v with
      | .null => some .null
      | .obj kvs0 => do
          let kvs1 := derase "type" kvs0
          let kvs2 ← applyType (dlookup "type" kvs0) kvs1
          let kvs3 := derase "format" kvs2
          let kvs4 := applyFormat (dlookup "format" kvs2) kvs3
          let kvs5 := derase "items" kvs4
          let kvs6 ← applyItems (renameSchemaFields n) (dlookup "items" kvs4) kvs5
          let kvs7 := derase "properties" kvs6
          let kvs8 ← applyProps (renameSchemaFields n) (dlookup "properties" kvs6) kvs7
          some (.obj kvs8)
      | _ => none

/-! ## `_generate_schema`

The schema deriver introspects a Python callable's signature.  We embed a
callable as its signature data (`PyFunc`): parameter list in declaration
order, each with its `inspect.Parameter` kind, optional annotation
(`none` embeds `inspect.Parameter.empty`) and a default-presence flag,
plus the function's name, docstring and (for the dispatch claims) its
runtime behaviour as a Lean function from keyword arguments to a result. -/

/-- A raised Python exception, by class and message/key. -/
inductive PyError where
  | valueError (msg : String)
  | keyError (key : String)
  | typeError (msg : String)
  | attributeError (attr : String)
  | nameError (name : String)
  deriving DecidableEq

/-- The type annotations the module documents support for
(`AllowedTypes = float | int | str | list[AllowedTypes] | dict`, plus
`bool`, `None`, unions and un-annotated "any"). -/
inductive TypeExpr where
  | float : TypeExpr
  | int : TypeExpr
  | str : TypeExpr
  | bool : TypeExpr
  | noneType : TypeExpr
  | any : TypeExpr
  | dict : TypeExpr
  | list (t : TypeExpr) : TypeExpr
  | union (ts : List TypeExpr) : TypeExpr

/-- `inspect.Parameter.kind`. -/
inductive ParamKind where
  | positionalOnly : ParamKind
  | positionalOrKeyword : ParamKind
  | keywordOnly : ParamKind
  | varPositional : ParamKind
  | varKeyword : ParamKind
  deriving DecidableEq

/-- Membership in `(POSITIONAL_OR_KEYWORD, KEYWORD_ONLY, POSITIONAL_ONLY)`. -/
def nonVariadic : ParamKind → Bool
  | .varPositional => false
  | .varKeyword => false
  | _ => true

/-- One parameter of a Python signature. -/
structure Param where
  name : String
  kind : ParamKind
  annotation : Option TypeExpr
  hasDefault : Bool

/-- A Python callable, embedded as its introspectable signature plus its
runtime behaviour (`impl` receives the keyword arguments of a call and
returns a value, or the exception the call raised). -/
structure PyFunc where
  name : String
  doc : Option String
  params : List Param
  impl : List (String × JValue) → Except PyError JValue

/-- `_generate_schema(f, descriptions=..., required=...)`, faithful to
this source tree.  The module's import block is `inspect`,
`from typing import Any, Callable, Union` (which binds those three names
but *not* the module name `typing`), `typing_extensions`, names from
`collections.abc`, and `glm`; `pydantic` is never imported at all.  The
body's first statements -- the `descriptions`/`required` defaulting and
`defaults = dict(inspect.signature(f).parameters)` -- succeed for any
callable, but building `fields_dict` evaluates `pydantic.Field(...)` for
each kept parameter, and looking up the unbound name `pydantic` raises
`NameError` before the call's arguments are even evaluated; with no kept
parameter the comprehension is empty and the next statement,
`pydantic.create_model(f.__name__, **fields_dict)`, raises the same
`NameError`.  Either way every call raises
`NameError: name 'pydantic' is not defined` before the title-popping, the
nullability pass (`typing.get_origin` -- the name `typing` is unbound
too) or the `if required:` branch can run, so no input reaches them. -/
def generate_schema (_f : PyFunc) (_descriptions : List (String × String))
    (_required : Option (List String)) : Except PyError JValue :=
  .error (.nameError "pydantic")

/-! ## Wire-format messages and the declaration/tool classes

The `google.ai.generativelanguage` protos are external; they are embedded
as plain records carrying the fields this module reads and writes.  A
`parameters` schema is stored as its (already renamed) `JValue`; proto
field-coercion internals are outside this module per the spec's scope. -/

/-- `glm.FunctionDeclaration`. -/
structure GlmFunctionDeclaration where
  name : String
  description : String
  parameters : Option JValue

/-- `glm.FunctionCall`: a requested call by name with keyword arguments. -/
structure FunctionCall where
  name : String
  args : List (String × JValue)

/-- `glm.FunctionResponse`. -/
structure FunctionResponse where
  name : String
  response : JValue

/-- `glm.Tool`. -/
structure GlmTool where
  function_declarations : List GlmFunctionDeclaration

/-- `glm.Part` (only its `function_response` field is used here). -/
structure Part where
  function_response : FunctionResponse

/-- The `FunctionDeclaration` wrapper class (and its
`CallableFunctionDeclaration` subclass, distinguished by `function` being
present).  NOTE, faithful to this source tree: the `name` / `description`
/ `parameters` properties and `from_proto` / `to_proto` are defined
*nested inside `__init__`* (dead local functions), so instances carry only
`_proto` (here `proto`) and, for the callable subclass, `function`. -/
structure FunctionDeclaration where
  proto : GlmFunctionDeclaration
  function : Option PyFunc

/-- `isinstance(result, dict)`. -/
def isStruct : JValue → Bool
  | .obj _ => true
  | _ => false

mutual
/-- A size measure dominating the nesting depth of a value, used to supply
enough fuel to the renamer. -/
def JValue.jsize : JValue → Nat
  | .null => 1
  | .bool _ => 1
  | .int _ => 1
  | .str _ => 1
  | .arr l => 1 + jsizeList l
  | .obj kvs => 1 + jsizeKVs kvs

/-- Size of a list of values. -/
def jsizeList : List JValue → Nat
  | [] => 0
  | v :: r => JValue.jsize v + jsizeList r

/-- Size of a dict's entries. -/
def jsizeKVs : List (String × JValue) → Nat
  | [] => 0
  | (_, v) :: r => JValue.jsize v + jsizeKVs r
end

/-- `_rename_schema_fields` as applied at construction time: `None` passes
through, and the fuel `jsize s + 1` dominates the nesting depth of `s`,
so the bound never bites; `none` from the renamer is a raised exception. -/
def renameSchemaFieldsTop : Option JValue → Except PyError (Option JValue)
  | none => .ok none
  | some s =>
      match renameSchemaFields (s.jsize + 1) s with
      | some t => .ok (some t)
      | none => .error (.attributeError "copy")

/-- `FunctionDeclaration.__init__` (with `function` also covering
`CallableFunctionDeclaration.__init__`, which stores the callable after
delegating to it). -/
def FunctionDeclaration.init (name : String) (description : Option String)
    (parameters : Option JValue) (function : Option PyFunc) :
    Except PyError FunctionDeclaration := do
  let renamed ← renameSchemaFieldsTop parameters
  .ok ⟨⟨name, description.getD "", renamed⟩, function⟩

/-- `CallableFunctionDeclaration.__call__`: run the bound callable on the
call's keyword arguments and wrap a non-dict result as
`{"result": value}`.  A plain (non-callable) declaration raises
`TypeError` when called. -/
def FunctionDeclaration.call (d : FunctionDeclaration) (fc : FunctionCall) :
    Except PyError FunctionResponse :=
  match d.function with
  | none => .error (.typeError "object is not callable")
  | some f => do
      let result ← f.impl fc.args
      let result := if isStruct result then result else JValue.obj [("result", result)]
      .ok ⟨fc.name, result⟩

/-- What `_make_function_declaration` returns and a `Tool` stores:
`FunctionDeclaration | glm.FunctionDeclaration`. -/
inductive FDObj where
  | wrapper (fd : FunctionDeclaration)
  | proto (p : GlmFunctionDeclaration)

/-- `fd.name`.  A wrapper instance has no `name` attribute in this source
tree (the property is a dead local of `__init__`), so the access raises
`AttributeError`; a proto message exposes its field. -/
def FDObj.getName : FDObj → Except PyError String
  | .proto p => .ok p.name
  | .wrapper _ => .error (.attributeError "name")

/-- Whether the stored object is a proto message. -/
def FDObj.isProto : FDObj → Bool
  | .proto _ => true
  | .wrapper _ => false

/-- The proto's name; `""` on a wrapper (only ever used in statements
about all-proto lists, where `getName` succeeds with this value). -/
def FDObj.pname : FDObj → String
  | .proto p => p.name
  | .wrapper _ => ""

/-- A value in a declaration dict: a schema value or the bound callable. -/
inductive DeclDictVal where
  | jv (v : JValue)
  | fn (f : PyFunc)

/-- `FunctionDeclarationType`: the loose union accepted by
`_make_function_declaration` — a wrapper instance, a proto message, a
dict of constructor arguments, or a bare callable. -/
inductive FDInput where
  | fd (d : FunctionDeclaration)
  | proto (p : GlmFunctionDeclaration)
  | dict (kvs : List (String × DeclDictVal))
  | func (f : PyFunc)

/-- Keyword-argument extraction for the dict constructor path: a required
string argument (`TypeError` when missing or of the wrong type). -/
def getStrKey (kvs : List (String × DeclDictVal)) (k : String) : Except PyError String :=
  match dlookup k kvs with
  | some (.jv (.str s)) => .ok s
  | _ => .error (.typeError k)

/-- The optional `parameters` keyword (`None` and absent both mean no
schema). -/
def getParamsKey (kvs : List (String × DeclDictVal)) : Except PyError (Option JValue) :=
  match dlookup "parameters" kvs with
  | none => .ok none
  | some (.jv .null) => .ok none
  | some (.jv v) => .ok (some v)
  | some (.fn _) => .error (.typeError "parameters")

/-- The `function` keyword for the callable constructor path. -/
def getFnKey (kvs : List (String × DeclDictVal)) : Except PyError PyFunc :=
  match dlookup "function" kvs with
  | some (.fn f) => .ok f
  | _ => .error (.typeError "function")

/-- `**kwargs` expansion rejects unexpected keyword names. -/
def keysSubset (kvs : List (String × DeclDictVal)) (allowed : List String) : Bool :=
  kvs.all (fun kv => allowed.contains kv.1)

/-- `CallableFunctionDeclaration(**schema, function=f)` as invoked by
`from_function` on the dict `_generate_schema` returns. -/
def declOfSchema (f : PyFunc) (schema : JValue) : Except PyError FunctionDeclaration :=
  match schema with
  | .obj kvs =>
      match dlookup "name" kvs, dlookup "description" kvs, dlookup "parameters" kvs with
      | some (.str n), some d, some (.obj P) =>
          FunctionDeclaration.init n
            (match d with | .str ds => some ds | _ => none) (some (.obj P)) (some f)
      | _, _, _ => .error (.typeError "bad schema")
  | _ => .error (.typeError "bad schema")

/-- A list comprehension over a fallible element function: the first
raised exception propagates. -/
def mapExcept {α β : Type} (f : α → Except PyError β) : List α → Except PyError (List β)
  | [] => .ok []
  | a :: l => do
      let b ← f a
      let bs ← mapExcept f l
      .ok (b :: bs)

/-- `_make_function_declaration`. -/
def makeFunctionDeclaration : FDInput → Except PyError FDObj
  | .fd d => .ok (.wrapper d)
  | .proto p => .ok (.proto p)
  | .dict kvs =>
      if dcontains "function" kvs then
        if keysSubset kvs ["name", "description", "parameters", "function"] then do
          let name ← getStrKey kvs "name"
          let description ← getStrKey kvs "description"
          let parameters ← getParamsKey kvs
          let function ← getFnKey kvs
          let d ← FunctionDeclaration.init name (some description) parameters (some function)
          .ok (.wrapper d)
        else .error (.typeError "unexpected keyword argument")
      else
        if keysSubset kvs ["name", "description", "parameters"] then do
          let name ← getStrKey kvs "name"
          let description ← getStrKey kvs "description"
          let parameters ← getParamsKey kvs
          let d ← FunctionDeclaration.init name (some description) parameters none
          .ok (.wrapper d)
        else .error (.typeError "unexpected keyword argument")
  | .func f => do
      -- CallableFunctionDeclaration.from_function(f)
      let schema ← generate_schema f [] none
      let d ← declOfSchema f schema
      .ok (.wrapper d)

/-- `_encode_fd`: a wrapper would be encoded via `to_proto`, but
`to_proto` is also a dead local of `__init__` in this tree, so the call
raises; protos pass through. -/
def encodeFd : FDObj → Except PyError GlmFunctionDeclaration
  | .proto p => .ok p
  | .wrapper _ => .error (.attributeError "to_proto")

/-- The `Tool` wrapper: declarations in order, the name index, and the
encoded proto. -/
structure Tool where
  function_declarations : List FDObj
  index : List (String × FDObj)
  protoT : List GlmFunctionDeclaration

/-- The index-building loop of `Tool.__init__`: each declaration's `name`
is read (raising on wrappers, see `FDObj.getName`) and inserted, raising
`ValueError("")` — an *empty* message — on a repeated name. -/
def buildIndex : List FDObj → List (String × FDObj) → Except PyError (List (String × FDObj))
  | [], idx => .ok idx
  | fd :: rest, idx => do
      let name ← fd.getName
      if dcontains name idx then .error (.valueError "")
      else buildIndex rest (idx ++ [(name, fd)])

/-- `Tool.__init__`. -/
def Tool.init (inputs : List FDInput) : Except PyError Tool := do
  let fds ← mapExcept makeFunctionDeclaration inputs
  let idx ← buildIndex fds []
  let protos ← mapExcept encodeFd fds
  .ok ⟨fds, idx, protos⟩

/-- `Tool.__getitem__` for a string key (a `FunctionCall` key is reduced
to its `name` first); a miss raises `KeyError`. -/
def Tool.getItem (t : Tool) (name : String) : Except PyError FDObj :=
  match dlookup name t.index with
  | some fd => .ok fd
  | none => .error (.keyError name)

/-- `ToolType`: the loose union accepted by `_make_tool`, split along the
source's `isinstance` chain: an existing `Tool`, a `glm.Tool`, a dict
with `"function_declarations"`, any other dict (treated as one raw proto
declaration), any other non-mapping iterable, and the non-iterable
fallthrough. -/
inductive ToolInput where
  | tool (t : Tool)
  | glmTool (gt : GlmTool)
  | toolDict (fds : List FDInput)
  | rawFdDict (kvs : List (String × JValue))
  | iter (l : List FDInput)
  | single (x : FDInput)

/-- `glm.FunctionDeclaration(**fd)` from a raw dict: recognized fields
only, `name`/`description` must be strings when present (defaulting to
`""`), the schema stored as given. -/
def glmFDofDict (kvs : List (String × JValue)) : Except PyError GlmFunctionDeclaration := do
  if (kvs.all (fun kv => (["name", "description", "parameters"] : List String).contains kv.1)) then
    let name ← (match dlookup "name" kvs with
      | none => .ok ""
      | some (.str s) => .ok s
      | some _ => .error (.typeError "name"))
    let description ← (match dlookup "description" kvs with
      | none => .ok ""
      | some (.str s) => .ok s
      | some _ => .error (.typeError "description"))
    let parameters := match dlookup "parameters" kvs with
      | some .null => none
      | x => x
    .ok ⟨name, description, parameters⟩
  else .error (.valueError "unknown field")

/-- `_make_tool`. -/
def makeTool : ToolInput → Except PyError Tool
  | .tool t => .ok t
  | .glmTool gt => Tool.init (gt.function_declarations.map FDInput.proto)
  | .toolDict fds => Tool.init fds
  | .rawFdDict kvs => do
      let p ← glmFDofDict kvs
      Tool.init [FDInput.proto p]
  | .iter l => Tool.init l
  | .single x =>
      match Tool.init [x] with
      | .ok t => .ok t
      | .error _ => .error (.typeError "Expected an instance of genai.ToolType")

/-- `ToolsType`: a non-mapping iterable of tool inputs, or a single value
(including mappings) handed to `_make_tool` directly. -/
inductive ToolsInput where
  | list (l : List ToolInput)
  | single (t : ToolInput)

/-- Re-inject a stored declaration object as a declaration input
(`t.function_declarations[0]` fed back through `_make_tool`). -/
def fdObjToInput : FDObj → FDInput
  | .wrapper d => .fd d
  | .proto p => .proto p

/-- `_make_tools`, including the flattening heuristic: more than one tool,
each holding exactly one declaration, collapse into a single tool. -/
def makeTools : ToolsInput → Except PyError (List Tool)
  | .list l => do
      let tools ← mapExcept makeTool l
      if 1 < tools.length ∧ ∀ t ∈ tools, t.function_declarations.length = 1 then do
        let t ← makeTool (.iter (tools.filterMap
          (fun t => t.function_declarations.head?.map fdObjToInput)))
        .ok [t]
      else
        .ok tools
  | .single t => do
      let t' ← makeTool t
      .ok [t']

/-- The descriptive duplicate-name message of `FunctionLibrary.__init__`. -/
def libDupMsg (name : String) : String :=
  "A `FunctionDeclaration` named " ++ name ++
    " is already defined. Each `FunctionDeclaration` must be uniquely named."

/-- The index-building loop of `FunctionLibrary.__init__` over one tool's
declarations: like `Tool`'s loop but raising the descriptive
`ValueError` naming the colliding function. -/
def libAddDecls : List FDObj → List (String × FDObj) → Except PyError (List (String × FDObj))
  | [], idx => .ok idx
  | d :: rest, idx => do
      let name ← d.getName
      if dcontains name idx then .error (.valueError (libDupMsg name))
      else libAddDecls rest (idx ++ [(name, d)])

/-- The `FunctionLibrary` container. -/
structure FunctionLibrary where
  tools : List Tool
  index : List (String × FDObj)

/-- The outer loop of `FunctionLibrary.__init__` over the tools. -/
def libAddTools : List Tool → List (String × FDObj) → Except PyError (List (String × FDObj))
  | [], idx => .ok idx
  | t :: ts, idx => do
      let idx' ← libAddDecls t.function_declarations idx
      libAddTools ts idx'

/-- `FunctionLibrary.__init__`. -/
def FunctionLibrary.init (tools : ToolsInput) : Except PyError FunctionLibrary := do
  let ts ← makeTools tools
  let idx ← libAddTools ts []
  .ok ⟨ts, idx⟩

/-! ## Calling-mode coercion -/

/-- `glm.FunctionCallingConfig.Mode`. -/
inductive FunctionCallingMode where
  | MODE_UNSPECIFIED : FunctionCallingMode
  | AUTO : FunctionCallingMode
  | ANY : FunctionCallingMode
  | NONE : FunctionCallingMode
  deriving DecidableEq

/-- The wire integer of each mode (the proto enum is an `IntEnum`). -/
def FunctionCallingMode.code : FunctionCallingMode → Int
  | .MODE_UNSPECIFIED => 0
  | .AUTO => 1
  | .ANY => 2
  | .NONE => 3

/-- A Python dict key as used by `_FUNCTION_CALLING_MODE`: an int (enum
members hash and compare equal to their integer value, so the dict's
`FunctionCallingMode.X:` entries collapse onto the integer entries) or a
string. -/
inductive PyKey where
  | int (n : Int) : PyKey
  | str (s : String) : PyKey
  deriving DecidableEq

/-- Association-list lookup for arbitrary decidable keys. -/
def klookup {κ α : Type} [DecidableEq κ] (k : κ) : List (κ × α) → Option α
  | [] => none
  | (k', v) :: rest => if k' = k then some v else klookup k rest

/-- `_FUNCTION_CALLING_MODE` after Python dict-literal evaluation: the
enum-keyed entries collapse onto the equal integer keys. -/
def functionCallingModeTable : List (PyKey × FunctionCallingMode) :=
  [(.int 1, .AUTO), (.str "mode_auto", .AUTO), (.str "auto", .AUTO),
   (.int 2, .ANY), (.str "mode_any", .ANY), (.str "any", .ANY),
   (.int 3, .NONE), (.str "mode_none", .NONE), (.str "none", .NONE)]

/-- Python's `str.lower()` (ASCII case mapping suffices for the alias
strings this table recognizes). -/
def pyLower (s : String) : String :=
  String.mk (s.data.map Char.toLower)

/-- `FunctionCallingModeType = FunctionCallingMode | str | int`. -/
inductive FCMInput where
  | mode (m : FunctionCallingMode) : FCMInput
  | str (s : String) : FCMInput
  | int (n : Int) : FCMInput

/-- `to_function_calling_mode`: lower-case a string input, then look the
value up in the table; a miss raises `KeyError`. -/
def to_function_calling_mode (x : FCMInput) : Except PyError FunctionCallingMode :=
  let key : PyKey := match x with
    | .str s => .str (pyLower s)
    | .int n => .int n
    | .mode m => .int m.code
  match klookup key functionCallingModeTable with
  | some m => .ok m
  | none => .error (.keyError (match key with | .str s => s | .int n => toString n))

/-! ## A mutable-heap model for the frame-effect claims

The frame claims are about Python object identity (the input dict is not
mutated), so the two functions concerned are re-embedded over an explicit
heap of dict cells: a dict value is a reference into the heap, `.copy()`
allocates a fresh cell, and every in-place `pop` / `d[k] = v` writes to an
explicit address.  The theorems show every cell existing before the call
holds exactly its original entries afterwards. -/

/-- A runtime Python value for the heap model: immutable scalars, a mode
enum member, an (immutable here — neither function mutates a list) list,
or a reference to a dict cell. -/
inductive PyVal where
  | none : PyVal
  | bool (b : Bool) : PyVal
  | int (n : Int) : PyVal
  | str (s : String) : PyVal
  | mode (m : FunctionCallingMode) : PyVal
  | list (xs : List PyVal) : PyVal
  | ref (a : Nat) : PyVal

/-- The heap of dict objects, addressed by allocation order. -/
structure Heap where
  cells : List (List (String × PyVal))

/-- Dereference a dict. -/
def Heap.lookup (h : Heap) (a : Nat) : Option (List (String × PyVal)) := h.cells[a]?

/-- `d.copy()`: allocate a fresh cell with the same entries. -/
def Heap.alloc (h : Heap) (kvs : List (String × PyVal)) : Heap × Nat :=
  (⟨h.cells ++ [kvs]⟩, h.cells.length)

/-- Overwrite one cell. -/
def Heap.write (h : Heap) (a : Nat) (kvs : List (String × PyVal)) : Heap :=
  ⟨h.cells.set a kvs⟩

/-- `d.pop(k, None)` in place at address `a`: the popped value (if any)
and the updated heap. -/
def Heap.hpop (h : Heap) (a : Nat) (k : String) : Option PyVal × Heap :=
  match h.lookup a with
  | Option.none => (Option.none, h)
  | some kvs => (dlookup k kvs, h.write a (derase k kvs))

/-- `d[k] = v` in place at address `a`. -/
def Heap.hset (h : Heap) (a : Nat) (k : String) (v : PyVal) : Heap :=
  match h.lookup a with
  | Option.none => h
  | some kvs => h.write a (dset k v kvs)

/-- Rename the values of a properties dict in order, threading the heap —
the dict comprehension `{k: _rename_schema_fields(v) for k, v in ...}`. -/
def renameVals (rec : Heap → PyVal → Option (Heap × PyVal)) :
    Heap → List (String × PyVal) → Option (Heap × List (String × PyVal))
  | h, [] => some (h, [])
  | h, (k, v) :: rest => do
      let (h, v') ← rec h v
      let (h, rest') ← renameVals rec h rest
      some (h, (k, v') :: rest')

/-- The `type` stage of the heap renamer: pop `type` in place, re-add
`type_` upper-cased; a non-string, non-`None` value raises. -/
def renameStepType (a' : Nat) (h : Heap) : Option Heap :=
  match (h.hpop a' "type").1 with
  | Option.none => some (h.hpop a' "type").2
  | some .none => some (h.hpop a' "type").2
  | some (.str u) => some (((h.hpop a' "type").2).hset a' "type_" (.str (pyUpper u)))
  | some _ => Option.none

/-- The `format` stage: pop `format` in place, re-add `format_` verbatim. -/
def renameStepFormat (a' : Nat) (h : Heap) : Heap :=
  match (h.hpop a' "format").1 with
  | Option.none => (h.hpop a' "format").2
  | some .none => (h.hpop a' "format").2
  | some fv => ((h.hpop a' "format").2).hset a' "format_" fv

/-- The `items` stage: pop `items`, recursively rename a non-`None` value
and re-add the result. -/
def renameStepItems (rec : Heap → PyVal → Option (Heap × PyVal)) (a' : Nat) (h : Heap) :
    Option Heap :=
  match (h.hpop a' "items").1 with
  | Option.none => some (h.hpop a' "items").2
  | some .none => some (h.hpop a' "items").2
  | some iv => do
      let (h', r) ← rec (h.hpop a' "items").2 iv
      some (h'.hset a' "items" r)

/-- The `properties` stage: pop `properties`, rename each value of a dict
value, allocate the comprehension's fresh dict and re-add a reference to
it; a non-dict, non-`None` value raises. -/
def renameStepProps (rec : Heap → PyVal → Option (Heap × PyVal)) (a' : Nat) (h : Heap) :
    Option Heap :=
  match (h.hpop a' "properties").1 with
  | Option.none => some (h.hpop a' "properties").2
  | some .none => some (h.hpop a' "properties").2
  | some (.ref ap) => do
      let pkvs ← ((h.hpop a' "properties").2).lookup ap
      let (h', pk) ← renameVals rec (h.hpop a' "properties").2 pkvs
      some (((h'.alloc pk).1).hset a' "properties" (.ref (h'.alloc pk).2))
  | some _ => Option.none

/-- `_rename_schema_fields` over the heap: copy the dict, then run the four
in-place stages on the copy.  `Option.none` models a raised exception (or
exhausted fuel). -/
def renameH : Nat → Heap → PyVal → Option (Heap × PyVal)
  | 0, _, _ => Option.none
  | n + 1, h0, v =>
    match v with
    | .none => some (h0, .none)
    | .ref a => do
        let kvs0 ← h0.lookup a
        let h1 := (h0.alloc kvs0).1
        let a' := (h0.alloc kvs0).2
        let h2 ← renameStepType a' h1
        let h3 := renameStepFormat a' h2
        let h4 ← renameStepItems (renameH n) a' h3
        let h5 ← renameStepProps (renameH n) a' h4
        some (h5, .ref a')
    | _ => Option.none

/-- `h'` agrees with `h` on the first `n0` cells and has at least `n0`
cells: nothing allocated before a call is disturbed by it. -/
def ExtendsAt (n0 : Nat) (h h' : Heap) : Prop :=
  (∀ i, i < n0 → h'.cells[i]? = h.cells[i]?) ∧ n0 ≤ h'.cells.length

/-! ## `to_function_calling_config` -/

/-- `glm.FunctionCallingConfig`. -/
structure GlmFunctionCallingConfig where
  mode : FunctionCallingMode := .MODE_UNSPECIFIED
  allowed_function_names : List String := []
  deriving DecidableEq

/-- Decode an integer to a mode, as the proto constructor does. -/
def intToMode : Int → Option FunctionCallingMode
  | 0 => some .MODE_UNSPECIFIED
  | 1 => some .AUTO
  | 2 => some .ANY
  | 3 => some .NONE
  | _ => Option.none

/-- `glm.FunctionCallingConfig(obj)` from a dict value: the two known
fields only; `mode` must carry a mode value (or a valid integer), and
`allowed_function_names` a list of strings. -/
def glmFCCofDict (kvs : List (String × PyVal)) : Except PyError GlmFunctionCallingConfig := do
  if kvs.all (fun kv => (["mode", "allowed_function_names"] : List String).contains kv.1) then
    let mode ← (match dlookup "mode" kvs with
      | Option.none => .ok FunctionCallingMode.MODE_UNSPECIFIED
      | some (.mode m) => .ok m
      | some (.int n) =>
          match intToMode n with
          | some m => .ok m
          | Option.none => .error (.valueError "unknown enum value")
      | some _ => .error (.typeError "mode"))
    let allowed ← (match dlookup "allowed_function_names" kvs with
      | Option.none => .ok ([] : List String)
      | some (.list xs) =>
          xs.foldr (fun x acc => do
            let l ← acc
            match x with
            | .str s => .ok (s :: l)
            | _ => .error (.typeError "allowed_function_names")) (.ok [])
      | some _ => .error (.typeError "allowed_function_names"))
    .ok ⟨mode, allowed⟩
  else .error (.valueError "unknown field")

/-- A dict value handed to `to_function_calling_mode` must be hashable and
of a recognized shape; Python `bool` compares equal to `0`/`1`. -/
def pyValToFCM : PyVal → Except PyError FCMInput
  | .mode m => .ok (.mode m)
  | .str s => .ok (.str s)
  | .int n => .ok (.int n)
  | .bool b => .ok (.int (if b then 1 else 0))
  | .none => .error (.keyError "None")
  | .list _ => .error (.typeError "unhashable type: list")
  | .ref _ => .error (.typeError "unhashable type: dict")

/-- `FunctionCallingConfigType`: an already-typed config, a bare
mode/str/int, or a dict (a reference into the heap). -/
inductive FCCInput where
  | glmConfig (c : GlmFunctionCallingConfig) : FCCInput
  | modeLike (x : FCMInput) : FCCInput
  | dict (a : Nat) : FCCInput

/-- `to_function_calling_config`: pass a typed config through; wrap a bare
mode value; for a dict, copy it, pop and coerce `"mode"` (a `KeyError`
when absent), re-attach the coerced mode on the copy, and build the proto
from the copy.  The returned heap makes the (non-)mutation observable. -/
def to_function_calling_config (h : Heap) :
    FCCInput → Except PyError (Heap × GlmFunctionCallingConfig)
  | .glmConfig c => .ok (h, c)
  | .modeLike x => do
      let m ← to_function_calling_mode x
      let cfg ← glmFCCofDict [("mode", .mode m)]
      .ok (h, cfg)
  | .dict a =>
      match h.lookup a with
      | Option.none => .error (.typeError "bad reference")
      | some _ => do
          let kvs0 := (h.lookup a).getD []
          -- obj = obj.copy()
          let h1 := (h.alloc kvs0).1
          let a' := (h.alloc kvs0).2
          -- mode = obj.pop("mode")
          match (h1.hpop a' "mode").1 with
          | Option.none => .error (.keyError "mode")
          | some mv => do
              let x ← pyValToFCM mv
              let m ← to_function_calling_mode x
              -- obj["mode"] = to_function_calling_mode(mode)
              let h3 := ((h1.hpop a' "mode").2).hset a' "mode" (.mode m)
              let cfg ← glmFCCofDict ((h3.lookup a').getD [])
              .ok (h3, cfg)

@[simp] theorem dlookup_nil {α : Type} (k : String) : dlookup (α := α) k [] = none := rfl

@[simp] theorem dlookup_cons {α : Type} (k k' : String) (v : α) (l : List (String × α)) :
    dlookup k ((k', v) :: l) = if k' = k then some v else dlookup k l := rfl

@[simp] theorem dlookup_append {α : Type} (k : String) (l₁ l₂ : List (String × α)) :
    dlookup k (l₁ ++ l₂) = ((dlookup k l₁).orElse (fun _ => dlookup k l₂)) := by
  induction l₁ with
  | nil => simp [dlookup]
  | cons hd tl ih =>
      obtain ⟨k', v⟩ := hd
      by_cases h : k' = k <;> simp [dlookup, h, ih]

@[simp] theorem derase_nil {α : Type} (k : String) : derase (α := α) k [] = [] := rfl

theorem derase_cons {α : Type} (k k' : String) (v : α) (l : List (String × α)) :
    derase k ((k', v) :: l) = if k' = k then derase k l else (k', v) :: derase k l := by
  by_cases h : k' = k <;> simp [derase, List.filter, h]

theorem dlookup_derase {α : Type} (k k' : String) (l : List (String × α)) :
    dlookup k (derase k' l) = if k' = k then none else dlookup k l := by
  induction l with
  | nil => simp
  | cons hd tl ih =>
      obtain ⟨k₀, v⟩ := hd
      rw [derase_cons]
      by_cases h1 : k₀ = k' <;> by_cases h2 : k₀ = k <;> by_cases h3 : k' = k <;>
        simp_all

@[simp] theorem dlookup_derase_self {α : Type} (k : String) (l : List (String × α)) :
    dlookup k (derase k l) = none := by
  simp [dlookup_derase]

theorem dlookup_derase_ne {α : Type} {k k' : String} (h : k' ≠ k) (l : List (String × α)) :
    dlookup k (derase k' l) = dlookup k l := by
  simp [dlookup_derase, h]

theorem derase_of_absent {α : Type} {k : String} {l : List (String × α)}
    (h : dlookup k l = none) : derase k l = l := by
  induction l with
  | nil => rfl
  | cons hd tl ih =>
      obtain ⟨k₀, v⟩ := hd
      rw [derase_cons]
      by_cases h1 : k₀ = k
      · simp [h1] at h
      · simp only [dlookup_cons, if_neg h1] at h
        simp [h1, ih h]

@[simp] theorem dcontains_nil {α : Type} (k : String) : dcontains (α := α) k [] = false := rfl

@[simp] theorem dcontains_cons {α : Type} (k k' : String) (v : α) (l : List (String × α)) :
    dcontains k ((k', v) :: l) = (decide (k' = k) || dcontains k l) := by
  by_cases h : k' = k <;> simp [dcontains, h]

theorem dcontains_iff {α : Type} (k : String) (l : List (String × α)) :
    dcontains k l = true ↔ ∃ v, dlookup k l = some v := by
  simp [dcontains, Option.isSome_iff_exists]

theorem dcontains_false {α : Type} {k : String} {l : List (String × α)}
    (h : dcontains k l = false) : dlookup k l = none := by
  rcases hl : dlookup k l with _ | w
  · rfl
  · rw [show dcontains k l = true from (dcontains_iff k l).mpr ⟨w, hl⟩] at h
    cases h

theorem dset_of_absent {α : Type} {k : String} {l : List (String × α)}
    (h : dlookup k l = none) (v : α) : dset k v l = l ++ [(k, v)] := by
  have hc : dcontains k l = false := by simp [dcontains, h]
  simp [dset, hc]

theorem dlookup_map_replace {α : Type} (k : String) (v : α) (l : List (String × α)) :
    dlookup k (l.map (fun kv => if kv.1 = k then (k, v) else kv)) =
      if dcontains k l then some v else none := by
  induction l with
  | nil => simp
  | cons hd tl ih =>
      obtain ⟨k₀, v₀⟩ := hd
      by_cases h1 : k₀ = k
      · subst h1
        simp only [List.map_cons, show (if (k₀, v₀).1 = k₀ then (k₀, v) else (k₀, v₀)) = (k₀, v)
          from by simp]
        simp [dlookup]
      · simp only [List.map_cons]
        rw [show (if (k₀, v₀).1 = k then (k, v) else (k₀, v₀)) = (k₀, v₀) from by simp [h1]]
        simp [dlookup, h1, ih]

theorem dlookup_map_replace_ne {α : Type} {k k' : String} (h : k' ≠ k) (v : α)
    (l : List (String × α)) :
    dlookup k (l.map (fun kv => if kv.1 = k' then (k', v) else kv)) = dlookup k l := by
  induction l with
  | nil => simp
  | cons hd tl ih =>
      obtain ⟨k₀, v₀⟩ := hd
      by_cases h1 : k₀ = k'
      · subst h1
        simp only [List.map_cons, show (if (k₀, v₀).1 = k₀ then (k₀, v) else (k₀, v₀)) = (k₀, v)
          from by simp]
        simp [dlookup, h, ih]
      · simp only [List.map_cons]
        rw [show (if (k₀, v₀).1 = k' then (k', v) else (k₀, v₀)) = (k₀, v₀) from by simp [h1]]
        by_cases h2 : k₀ = k <;> simp [dlookup, h2, ih]

theorem dlookup_dset_self {α : Type} (k : String) (v : α) (l : List (String × α)) :
    dlookup k (dset k v l) = some v := by
  cases hc : dcontains k l with
  | true => simp [dset, hc, dlookup_map_replace]
  | false =>
      have h' := dcontains_false hc
      simp [dset, hc, h', dlookup, Option.orElse]

theorem dlookup_dset_ne {α : Type} {k k' : String} (h : k' ≠ k) (v : α) (l : List (String × α)) :
    dlookup k (dset k' v l) = dlookup k l := by
  cases hc : dcontains k' l with
  | true => simp [dset, hc, dlookup_map_replace_ne h]
  | false =>
      simp only [dset, hc, Bool.false_eq_true, if_false, dlookup_append]
      rcases hl : dlookup k l with _ | w <;> simp [dlookup, Option.orElse, h]

@[simp] theorem orElse_none_fun {α : Type} (f : Unit → Option α) :
    (Option.none).orElse f = f () := rfl

@[simp] theorem orElse_some_fun {α : Type} (a : α) (f : Unit → Option α) :
    (Option.some a).orElse f = some a := rfl

@[simp] theorem except_bind_ok {ε α β : Type} (a : α) (f : α → Except ε β) :
    (Except.ok a >>= f) = f a := rfl

@[simp] theorem except_bind_err {ε α β : Type} (e : ε) (f : α → Except ε β) :
    ((Except.error e : Except ε α) >>= f) = Except.error e := rfl

theorem derase_append {α : Type} (k : String) (l₁ l₂ : List (String × α)) :
    derase k (l₁ ++ l₂) = derase k l₁ ++ derase k l₂ := by
  simp [derase]

/-- The renamer maps `None` to `None` and dicts to dicts; nothing else succeeds. -/
theorem renameSchemaFields_shape {n : Nat} {s t : JValue}
    (h : renameSchemaFields n s = some t) :
    (s = .null ∧ t = .null) ∨ ∃ a b, s = .obj a ∧ t = .obj b := by
  match n, s with
  | 0, _ => simp [renameSchemaFields] at h
  | n + 1, .null =>
      left
      simp only [renameSchemaFields, Option.some.injEq] at h
      exact ⟨rfl, h.symm⟩
  | n + 1, .obj kvs0 =>
      right
      simp only [renameSchemaFields, Option.bind_eq_bind, Option.bind_eq_some] at h
      obtain ⟨k2, _, k6, _, k8, _, ht⟩ := h
      simp only [Option.some.injEq] at ht
      exact ⟨kvs0, k8, rfl, ht.symm⟩
  | n + 1, .bool b => simp [renameSchemaFields] at h
  | n + 1, .int m => simp [renameSchemaFields] at h
  | n + 1, .str u => simp [renameSchemaFields] at h
  | n + 1, .arr l => simp [renameSchemaFields] at h

theorem applyType_lookup_ne {t0 : Option JValue} {s s' : List (String × JValue)}
    (h : applyType t0 s = some s') {k : String} (hk : k ≠ "type_") :
    dlookup k s' = dlookup k s := by
  match t0 with
  | none => cases h; rfl
  | some .null => cases h; rfl
  | some (.str u) =>
      simp only [applyType, Option.some.injEq] at h
      rw [← h, dlookup_dset_ne (fun hh => hk hh.symm)]
  | some (.bool b) | some (.int m) | some (.obj kv) | some (.arr l) =>
      simp [applyType] at h

theorem applyFormat_lookup_ne (f0 : Option JValue) (s : List (String × JValue))
    {k : String} (hk : k ≠ "format_") :
    dlookup k (applyFormat f0 s) = dlookup k s := by
  match f0 with
  | none => rfl
  | some .null => rfl
  | some (.str u) | some (.bool b) | some (.int m) | some (.obj kv) | some (.arr l) =>
      exact dlookup_dset_ne (fun hh => hk hh.symm) _ _

theorem applyItems_lookup_ne {rec : JValue → Option JValue} {i0 : Option JValue}
    {s s' : List (String × JValue)} (h : applyItems rec i0 s = some s')
    {k : String} (hk : k ≠ "items") :
    dlookup k s' = dlookup k s := by
  match i0 with
  | none => cases h; rfl
  | some .null => cases h; rfl
  | some (.str u) | some (.bool b) | some (.int m) | some (.obj kv) | some (.arr l) =>
      simp only [applyItems, Option.map_eq_some'] at h
      obtain ⟨r, _, hr⟩ := h
      rw [← hr, dlookup_dset_ne (fun hh => hk hh.symm)]

theorem applyProps_lookup_ne {rec : JValue → Option JValue} {p0 : Option JValue}
    {s s' : List (String × JValue)} (h : applyProps rec p0 s = some s')
    {k : String} (hk : k ≠ "properties") :
    dlookup k s' = dlookup k s := by
  match p0 with
  | none => cases h; rfl
  | some .null => cases h; rfl
  | some (.obj pkvs) =>
      simp only [applyProps, Option.map_eq_some'] at h
      obtain ⟨pk, _, hr⟩ := h
      rw [← hr, dlookup_dset_ne (fun hh => hk hh.symm)]
  | some (.str u) | some (.bool b) | some (.int m) | some (.arr l) =>
      simp [applyProps] at h

theorem applyItems_cases {rec : JValue → Option JValue} {i0 : Option JValue}
    {s s' : List (String × JValue)} (h : applyItems rec i0 s = some s') :
    (s' = s ∧ (i0 = none ∨ i0 = some .null)) ∨
      ∃ v r, i0 = some v ∧ v ≠ .null ∧ rec v = some r ∧ s' = dset "items" r s := by
  match i0 with
  | none => cases h; exact Or.inl ⟨rfl, Or.inl rfl⟩
  | some .null => cases h; exact Or.inl ⟨rfl, Or.inr rfl⟩
  | some (.str u) | some (.bool b) | some (.int m) | some (.obj kv) | some (.arr l) =>
      simp only [applyItems, Option.map_eq_some'] at h
      obtain ⟨r, hr, hs⟩ := h
      exact Or.inr ⟨_, r, rfl, (fun hh => nomatch hh), hr, hs.symm⟩

theorem applyProps_cases {rec : JValue → Option JValue} {p0 : Option JValue}
    {s s' : List (String × JValue)} (h : applyProps rec p0 s = some s') :
    (s' = s ∧ (p0 = none ∨ p0 = some .null)) ∨
      ∃ pkvs pk, p0 = some (.obj pkvs) ∧ mapVals rec pkvs = some pk ∧
        s' = dset "properties" (.obj pk) s := by
  match p0 with
  | none => cases h; exact Or.inl ⟨rfl, Or.inl rfl⟩
  | some .null => cases h; exact Or.inl ⟨rfl, Or.inr rfl⟩
  | some (.obj pkvs) =>
      simp only [applyProps, Option.map_eq_some'] at h
      obtain ⟨pk, hr, hs⟩ := h
      exact Or.inr ⟨pkvs, pk, rfl, hr, hs.symm⟩
  | some (.str u) | some (.bool b) | some (.int m) | some (.arr l) =>
      simp [applyProps] at h

/-- If `rec` is idempotent on its successes, so is the per-key value map. -/
theorem mapVals_idem {rec : JValue → Option JValue}
    (hrec : ∀ s t, rec s = some t → rec t = some t) :
    ∀ l l', mapVals rec l = some l' → mapVals rec l' = some l' := by
  intro l
  induction l with
  | nil => intro l' h; cases h; rfl
  | cons hd tl ih =>
      intro l' h
      obtain ⟨k, v⟩ := hd
      simp only [mapVals, Option.bind_eq_bind, Option.bind_eq_some, Option.some.injEq] at h
      obtain ⟨v', hv, rest', hrest, hl⟩ := h
      subst hl
      simp only [mapVals, Option.bind_eq_bind, Option.bind_eq_some, Option.some.injEq]
      exact ⟨v', hrec v v' hv, rest', ih rest' hrest, rfl⟩

@[simp] theorem applyType_none (s : List (String × JValue)) : applyType none s = some s := rfl

@[simp] theorem applyFormat_none (s : List (String × JValue)) : applyFormat none s = s := rfl

@[simp] theorem applyItems_none (rec : JValue → Option JValue) (s : List (String × JValue)) :
    applyItems rec none s = some s := rfl

@[simp] theorem applyProps_none (rec : JValue → Option JValue) (s : List (String × JValue)) :
    applyProps rec none s = some s := rfl

theorem applyItems_obj (rec : JValue → Option JValue) (a : List (String × JValue))
    (s : List (String × JValue)) :
    applyItems rec (some (.obj a)) s = (rec (.obj a)).map (fun r => dset "items" r s) := rfl

theorem applyProps_obj (rec : JValue → Option JValue) (a : List (String × JValue))
    (s : List (String × JValue)) :
    applyProps rec (some (.obj a)) s =
      (mapVals rec a).map (fun pk => dset "properties" (.obj pk) s) := rfl

theorem dlookup_singleton {α : Type} (k k' : String) (v : α) :
    dlookup k [(k', v)] = if k' = k then some v else none := by
  simp [dlookup]

theorem derase_singleton {α : Type} (k k' : String) (v : α) :
    derase k [(k', v)] = if k' = k then [] else [(k', v)] := by
  by_cases h : k' = k <;> simp [derase, h]

/-- A dict of the shape produced by a successful `_rename_schema_fields` call
(`X` with no special keys, then the optional renamed `items` and `properties`
tails, already-renamed values) renames to itself. -/
theorem renameSchemaFields_fix (n : Nat)
    (X iT pT kvs8 : List (String × JValue))
    (hk : kvs8 = X ++ iT ++ pT)
    (hT : dlookup "type" kvs8 = none)
    (hF : dlookup "format" kvs8 = none)
    (hIX : dlookup "items" X = none)
    (hPX : dlookup "properties" X = none)
    (hiT : iT = [] ∨ ∃ b, iT = [("items", JValue.obj b)] ∧
      renameSchemaFields n (.obj b) = some (.obj b))
    (hpT : pT = [] ∨ ∃ pk, pT = [("properties", JValue.obj pk)] ∧
      mapVals (renameSchemaFields n) pk = some pk) :
    renameSchemaFields (n + 1) (.obj kvs8) = some (.obj kvs8) := by
  have hderT : derase "type" kvs8 = kvs8 := derase_of_absent hT
  have hderF : derase "format" kvs8 = kvs8 := derase_of_absent hF
  simp only [renameSchemaFields, Option.bind_eq_bind]
  rw [hT, hderT]
  simp only [applyType_none, Option.some_bind]
  rw [hF, hderF]
  simp only [applyFormat_none]
  rcases hiT with hiT | ⟨b, hiT, hb⟩
  · -- no items tail
    have hI : dlookup "items" kvs8 = none := by
      rcases hpT with hpT | ⟨pk, hpT, _⟩ <;>
        simp [hk, hiT, hpT, dlookup_append, hIX, dlookup_singleton, Option.orElse]
    rw [hI, derase_of_absent hI]
    simp only [applyItems_none, Option.some_bind]
    rcases hpT with hpT | ⟨pk, hpT, hpk⟩
    · -- no properties tail
      have hP : dlookup "properties" kvs8 = none := by
        simp [hk, hiT, hpT, dlookup_append, hPX, Option.orElse]
      rw [hP, derase_of_absent hP]
      simp only [applyProps_none, Option.some_bind]
    · -- properties tail only
      have hP : dlookup "properties" kvs8 = some (.obj pk) := by
        simp [hk, hiT, hpT, dlookup_append, hPX, dlookup_singleton, Option.orElse]
      have hderP : derase "properties" kvs8 = X := by
        rw [hk, hiT, hpT]
        simp [derase_append, derase_of_absent hPX, derase_singleton]
      rw [hP, hderP, applyProps_obj, hpk]
      simp only [Option.map_some', Option.some_bind, Option.some.injEq, JValue.obj.injEq]
      rw [dset_of_absent hPX, hk, hiT, hpT]
      simp
  · -- items tail present
    have hI : dlookup "items" kvs8 = some (.obj b) := by
      rcases hpT with hpT | ⟨pk, hpT, _⟩ <;>
        simp [hk, hiT, hpT, dlookup_append, hIX, dlookup_singleton, Option.orElse]
    rcases hpT with hpT | ⟨pk, hpT, hpk⟩
    · -- items tail, no properties tail
      have hderI : derase "items" kvs8 = X := by
        rw [hk, hiT, hpT]
        simp [derase_append, derase_of_absent hIX, derase_cons, derase_singleton]
      rw [hI, hderI, applyItems_obj, hb]
      simp only [Option.map_some', Option.some_bind]
      rw [dset_of_absent hIX]
      have hP : dlookup "properties" (X ++ [("items", JValue.obj b)]) = none := by
        simp [dlookup_append, hPX, dlookup_singleton, Option.orElse]
      rw [hP, derase_of_absent hP]
      simp only [applyProps_none, Option.some_bind, Option.some.injEq, JValue.obj.injEq]
      rw [hk, hiT, hpT]
      simp
    · -- items and properties tails
      have hderI : derase "items" kvs8 = X ++ [("properties", JValue.obj pk)] := by
        rw [hk, hiT, hpT]
        simp [derase_append, derase_of_absent hIX, derase_cons, derase_singleton]
      rw [hI, hderI, applyItems_obj, hb]
      simp only [Option.map_some', Option.some_bind]
      have hIXP : dlookup "items" (X ++ [("properties", JValue.obj pk)]) = none := by
        simp [dlookup_append, hIX, dlookup_singleton, Option.orElse]
      rw [dset_of_absent hIXP]
      have hP : dlookup "properties"
          ((X ++ [("properties", JValue.obj pk)]) ++ [("items", JValue.obj b)]) =
            some (.obj pk) := by
        simp [dlookup_append, hPX, dlookup_singleton, Option.orElse]
      rw [hP]
      have hderP : derase "properties"
          ((X ++ [("properties", JValue.obj pk)]) ++ [("items", JValue.obj b)]) =
            X ++ [("items", JValue.obj b)] := by
        simp [derase_append, derase_of_absent hPX, derase_cons, derase_singleton]
      rw [hderP, applyProps_obj, hpk]
      simp only [Option.map_some', Option.some_bind, Option.some.injEq, JValue.obj.injEq]
      have hPXI : dlookup "properties" (X ++ [("items", JValue.obj b)]) = none := by
        simp [dlookup_append, hPX, dlookup_singleton, Option.orElse]
      rw [dset_of_absent hPXI, hk, hiT, hpT]

/-- Idempotence of the renamer, by induction on the fuel. -/
theorem renameSchemaFields_idem_aux :
    ∀ n s t, renameSchemaFields n s = some t → renameSchemaFields n t = some t := by
  intro n
  induction n with
  | zero => intro s t h; simp [renameSchemaFields] at h
  | succ n ih =>
      intro s t h
      cases s with
      | null =>
          simp only [renameSchemaFields, Option.some.injEq] at h
          subst h
          rfl
      | bool b => simp [renameSchemaFields] at h
      | int m => simp [renameSchemaFields] at h
      | str u => simp [renameSchemaFields] at h
      | arr l => simp [renameSchemaFields] at h
      | obj kvs0 =>
          simp only [renameSchemaFields, Option.bind_eq_bind, Option.bind_eq_some] at h
          obtain ⟨kvs2, h2, kvs6, h6, kvs8, h8, ht⟩ := h
          simp only [Option.some.injEq] at ht
          subst ht
          set f4 := applyFormat (dlookup "format" kvs2) (derase "format" kvs2) with hf4
          have hT2 : dlookup "type" kvs2 = none := by
            rw [applyType_lookup_ne h2 (by decide)]
            exact dlookup_derase_self _ _
          have hT4 : dlookup "type" f4 = none := by
            rw [hf4, applyFormat_lookup_ne _ _ (by decide),
              dlookup_derase_ne (by decide), hT2]
          have hF4 : dlookup "format" f4 = none := by
            rw [hf4, applyFormat_lookup_ne _ _ (by decide)]
            exact dlookup_derase_self _ _
          have hT6 : dlookup "type" kvs6 = none := by
            rw [applyItems_lookup_ne h6 (by decide), dlookup_derase_ne (by decide)]
            exact hT4
          have hF6 : dlookup "format" kvs6 = none := by
            rw [applyItems_lookup_ne h6 (by decide), dlookup_derase_ne (by decide)]
            exact hF4
          have hT8 : dlookup "type" kvs8 = none := by
            rw [applyProps_lookup_ne h8 (by decide), dlookup_derase_ne (by decide)]
            exact hT6
          have hF8 : dlookup "format" kvs8 = none := by
            rw [applyProps_lookup_ne h8 (by decide), dlookup_derase_ne (by decide)]
            exact hF6
          rcases applyItems_cases h6 with ⟨hk6, _⟩ | ⟨v, r, hi0, hvn, hr, hk6⟩
          · -- no items key in the output
            have hI6 : dlookup "items" kvs6 = none := by
              rw [hk6]
              exact dlookup_derase_self _ _
            rcases applyProps_cases h8 with ⟨hk8, _⟩ | ⟨pkvs, pk, hp0, hmap, hk8⟩
            · have hI8 : dlookup "items" kvs8 = none := by
                rw [hk8, dlookup_derase_ne (by decide)]
                exact hI6
              have hP8 : dlookup "properties" kvs8 = none := by
                rw [hk8]
                exact dlookup_derase_self _ _
              exact renameSchemaFields_fix n kvs8 [] [] kvs8 (by simp) hT8 hF8 hI8 hP8
                (Or.inl rfl) (Or.inl rfl)
            · have hk8' : kvs8 = derase "properties" kvs6 ++ [("properties", JValue.obj pk)] := by
                rw [hk8, dset_of_absent (dlookup_derase_self _ _)]
              have hIX : dlookup "items" (derase "properties" kvs6) = none := by
                rw [dlookup_derase_ne (by decide)]
                exact hI6
              have hpk' : mapVals (renameSchemaFields n) pk = some pk :=
                mapVals_idem ih pkvs pk hmap
              exact renameSchemaFields_fix n (derase "properties" kvs6) []
                [("properties", JValue.obj pk)] kvs8 (by rw [hk8']; simp) hT8 hF8 hIX
                (dlookup_derase_self _ _) (Or.inl rfl) (Or.inr ⟨pk, rfl, hpk'⟩)
          · -- items key re-added with a renamed (hence dict) value
            have hk6' : kvs6 = derase "items" f4 ++ [("items", r)] := by
              rw [hk6, dset_of_absent (dlookup_derase_self _ _)]
            obtain ⟨a, b, hva, hrb⟩ : ∃ a b, v = JValue.obj a ∧ r = JValue.obj b := by
              rcases renameSchemaFields_shape hr with ⟨hv0, _⟩ | ⟨a, b, hva, hrb⟩
              · exact absurd hv0 hvn
              · exact ⟨a, b, hva, hrb⟩
            subst hrb
            have hrfix : renameSchemaFields n (JValue.obj b) = some (JValue.obj b) :=
              ih v (JValue.obj b) hr
            have hX : dlookup "items" (derase "properties" (derase "items" f4)) = none := by
              rw [dlookup_derase_ne (by decide)]
              exact dlookup_derase_self _ _
            rcases applyProps_cases h8 with ⟨hk8, _⟩ | ⟨pkvs, pk, hp0, hmap, hk8⟩
            · have hk8' : kvs8 =
                  derase "properties" (derase "items" f4) ++ [("items", JValue.obj b)] := by
                rw [hk8, hk6', derase_append]
                simp [derase_singleton]
              exact renameSchemaFields_fix n (derase "properties" (derase "items" f4))
                [("items", JValue.obj b)] [] kvs8 (by rw [hk8']; simp) hT8 hF8 hX
                (dlookup_derase_self _ _) (Or.inr ⟨b, rfl, hrfix⟩) (Or.inl rfl)
            · have hderase6 : derase "properties" kvs6 =
                  derase "properties" (derase "items" f4) ++ [("items", JValue.obj b)] := by
                rw [hk6', derase_append]
                simp [derase_singleton]
              have habs : dlookup "properties"
                  (derase "properties" (derase "items" f4) ++ [("items", JValue.obj b)]) =
                    none := by
                simp [dlookup_append, dlookup_singleton, Option.orElse]
              have hk8' : kvs8 =
                  (derase "properties" (derase "items" f4) ++ [("items", JValue.obj b)]) ++
                    [("properties", JValue.obj pk)] := by
                rw [hk8, hderase6, dset_of_absent habs]
              have hpk' : mapVals (renameSchemaFields n) pk = some pk :=
                mapVals_idem ih pkvs pk hmap
              exact renameSchemaFields_fix n (derase "properties" (derase "items" f4))
                [("items", JValue.obj b)] [("properties", JValue.obj pk)] kvs8 (by rw [hk8'])
                hT8 hF8 hX (dlookup_derase_self _ _) (Or.inr ⟨b, rfl, hrfix⟩)
                (Or.inr ⟨pk, rfl, hpk'⟩)

/-- C7: the key-renaming normalization `_rename_schema_fields` is idempotent
on its own output: whenever renaming a schema `s` succeeds with output `t`,
renaming `t` again yields `t` unchanged — the already-renamed `type_` and
`format_` keys are not renamed or altered again at any nesting level. -/
theorem claim_C7 (fuel : Nat) (s t : JValue)
    (h : renameSchemaFields fuel s = some t) :
    renameSchemaFields fuel t = some t :=
  renameSchemaFields_idem_aux fuel s t h

/-- Witness for C7 at a concrete nested schema. -/
theorem claim_C7_witness :
    renameSchemaFields 3
        (JValue.obj [("type", JValue.str "object"), ("format", JValue.str "f"),
          ("properties", JValue.obj [("a", JValue.obj [("type", JValue.str "integer")])])]) =
      some (JValue.obj [("type_", JValue.str "OBJECT"), ("format_", JValue.str "f"),
        ("properties", JValue.obj [("a", JValue.obj [("type_", JValue.str "INTEGER")])])]) ∧
    renameSchemaFields 3
        (JValue.obj [("type_", JValue.str "OBJECT"), ("format_", JValue.str "f"),
          ("properties", JValue.obj [("a", JValue.obj [("type_", JValue.str "INTEGER")])])]) =
      some (JValue.obj [("type_", JValue.str "OBJECT"), ("format_", JValue.str "f"),
        ("properties", JValue.obj [("a", JValue.obj [("type_", JValue.str "INTEGER")])])]) :=
  ⟨by rfl,
    claim_C7 3
      (JValue.obj [("type", JValue.str "object"), ("format", JValue.str "f"),
        ("properties", JValue.obj [("a", JValue.obj [("type", JValue.str "integer")])])])
      (JValue.obj [("type_", JValue.str "OBJECT"), ("format_", JValue.str "f"),
        ("properties", JValue.obj [("a", JValue.obj [("type_", JValue.str "INTEGER")])])])
      (by rfl)⟩

/-- C1 (code_bug): the claim says that for every fully annotated callable
with no variadic parameters the derived schema lists exactly the
parameters as `properties`, infers `required` as the parameters without
defaults, and marks `nullable` exactly for union-with-`None` annotations.
In this source tree `_generate_schema` cannot produce a schema at all: it
reads the unbound names `pydantic` and `typing` (see `generate_schema`),
so every call raises `NameError` first.  At the claim's kind of input --
`add(x: int, y: int | None = 0)`, fully annotated, non-variadic, no
required-override -- the call errors instead of returning a schema. -/
theorem claim_C1 :
    generate_schema
      { name := "add", doc := some "adds",
        params := [{ name := "x", kind := .positionalOrKeyword,
                     annotation := some TypeExpr.int, hasDefault := false },
                   { name := "y", kind := .positionalOrKeyword,
                     annotation := some (TypeExpr.union [TypeExpr.int, TypeExpr.noneType]),
                     hasDefault := true }],
        impl := fun _ => .ok JValue.null } [] none =
      .error (.nameError "pydantic") := rfl

/-- C6 (code_bug): the claim says an explicitly supplied required list --
including the empty list -- is used verbatim.  The `if required:` test the
claim is about is dead code in this source tree: `_generate_schema`
raises `NameError` on the unbound name `pydantic` before reaching it (see
`generate_schema`), so at `add(x)` (one defaultless parameter) with the
explicit override `required = []` the call errors instead of returning a
schema with any required list, verbatim or inferred. -/
theorem claim_C6 :
    generate_schema
      { name := "add", doc := none,
        params := [{ name := "x", kind := .positionalOrKeyword,
                     annotation := some TypeExpr.int, hasDefault := false }],
        impl := fun _ => .ok JValue.null } [] (some []) =
      .error (.nameError "pydantic") := rfl

/-- C5: invoking a callable-bound declaration on a `FunctionCall` whose
name matches the declaration calls the bound implementation with the
call's arguments expanded as keyword arguments, and returns a
`FunctionResponse` whose `response` is `{"result": v}` when the returned
value `v` is not a struct/dict, and is `v` verbatim when it is. -/
theorem claim_C5 (d : FunctionDeclaration) (g : PyFunc) (fc : FunctionCall) (v : JValue)
    (hfn : d.function = some g) (hname : fc.name = d.proto.name)
    (himpl : g.impl fc.args = .ok v) :
    d.call fc =
      .ok { name := fc.name
            response := (if isStruct v then v else JValue.obj [("result", v)]) } := by
  simp only [FunctionDeclaration.call, hfn, himpl]
  rfl

/-- Witness for C5: a bound implementation summing `x` and `y`. -/
theorem claim_C5_witness :
    FunctionDeclaration.call
        { proto := { name := "add", description := "", parameters := none }
          function := some { name := "add"
                             doc := none
                             params := []
                             impl := (fun args =>
                               match dlookup "x" args, dlookup "y" args with
                               | some (.int a), some (.int b) => .ok (.int (a + b))
                               | _, _ => .error (.typeError "bad args")) } }
        { name := "add", args := [("x", .int 2), ("y", .int 3)] } =
      .ok { name := "add"
            response := (if isStruct (.int 5) then .int 5
              else JValue.obj [("result", .int 5)]) } :=
  claim_C5
    { proto := { name := "add", description := "", parameters := none }
      function := some { name := "add"
                         doc := none
                         params := []
                         impl := (fun args =>
                           match dlookup "x" args, dlookup "y" args with
                           | some (.int a), some (.int b) => .ok (.int (a + b))
                           | _, _ => .error (.typeError "bad args")) } }
    { name := "add"
      doc := none
      params := []
      impl := (fun args =>
        match dlookup "x" args, dlookup "y" args with
        | some (.int a), some (.int b) => .ok (.int (a + b))
        | _, _ => .error (.typeError "bad args")) }
    { name := "add", args := [("x", .int 2), ("y", .int 3)] }
    (.int 5) rfl rfl (by rfl)

/-- C2 (code evaluation at the failing input): constructing a `Tool` from
two wrapper `FunctionDeclaration`s with *distinct* names — which the claim
says must succeed with both declarations retrievable — raises
`AttributeError` instead, because the `name` property of the wrapper class
is a dead local of `__init__` in this source tree. -/
theorem claim_C2 :
    Tool.init
        [FDInput.fd { proto := { name := "a", description := "", parameters := none },
                      function := none },
         FDInput.fd { proto := { name := "b", description := "", parameters := none },
                      function := none }] =
      .error (.attributeError "name") := rfl

theorem dcontains_append {α : Type} (n : String) (l₁ l₂ : List (String × α)) :
    dcontains n (l₁ ++ l₂) = (dcontains n l₁ || dcontains n l₂) := by
  simp only [dcontains, dlookup_append]
  cases dlookup n l₁ <;> simp [Option.orElse]

theorem dcontains_map_names (n : String) (l : List FDObj) :
    dcontains n (l.map (fun d => (d.pname, d))) = true ↔ n ∈ l.map FDObj.pname := by
  induction l with
  | nil => simp
  | cons d rest ih =>
      simp only [List.map_cons, dcontains_cons, List.mem_cons, Bool.or_eq_true,
        decide_eq_true_eq, ih]
      constructor
      · rintro (h | h)
        · exact Or.inl h.symm
        · exact Or.inr h
      · rintro (h | h)
        · exact Or.inl h.symm
        · exact Or.inr h

/-- Full characterization of a successful `Tool` index build: every
declaration is a proto, the names are fresh for the accumulator and
pairwise distinct, and the index extends the accumulator in order. -/
theorem buildIndex_ok :
    ∀ (fds : List FDObj) (idx idx' : List (String × FDObj)),
      buildIndex fds idx = .ok idx' →
      (∀ d ∈ fds, d.isProto = true) ∧
      idx' = idx ++ fds.map (fun d => (d.pname, d)) ∧
      (∀ n ∈ fds.map FDObj.pname, dcontains n idx = false) ∧
      (fds.map FDObj.pname).Nodup := by
  intro fds
  induction fds with
  | nil =>
      intro idx idx' h
      cases h
      simp
  | cons d rest ih =>
      intro idx idx' h
      match d with
      | .wrapper fd => simp [buildIndex, FDObj.getName] at h
      | .proto p =>
          simp only [buildIndex, FDObj.getName, except_bind_ok] at h
          by_cases hc : dcontains p.name idx = true
          · rw [if_pos hc] at h
            simp at h
          · rw [if_neg hc] at h
            have hcf : dcontains p.name idx = false := by
              cases hcc : dcontains p.name idx
              · rfl
              · exact absurd hcc hc
            obtain ⟨hproto, hidx, hfresh, hnd⟩ := ih (idx ++ [(p.name, .proto p)]) idx' h
            refine ⟨?_, ?_, ?_, ?_⟩
            · intro e he
              rcases List.mem_cons.mp he with rfl | he'
              · rfl
              · exact hproto e he'
            · rw [hidx, List.append_assoc]
              rfl
            · intro n hn
              rcases List.mem_cons.mp hn with rfl | hn'
              · exact hcf
              · have := hfresh n hn'
                rw [dcontains_append] at this
                exact (Bool.or_eq_false_iff.mp this).1
            · rw [List.map_cons, List.nodup_cons]
              constructor
              · intro hmem
                have := hfresh _ hmem
                rw [dcontains_append] at this
                have h2 := (Bool.or_eq_false_iff.mp this).2
                simp [dcontains, dlookup, FDObj.pname] at h2
              · exact hnd

/-- Conversely, an all-proto, duplicate-free, accumulator-fresh list of
declarations indexes successfully. -/
theorem buildIndex_ok_of :
    ∀ (fds : List FDObj) (idx : List (String × FDObj)),
      (∀ d ∈ fds, d.isProto = true) →
      (fds.map FDObj.pname).Nodup →
      (∀ n ∈ fds.map FDObj.pname, dcontains n idx = false) →
      buildIndex fds idx = .ok (idx ++ fds.map (fun d => (d.pname, d))) := by
  intro fds
  induction fds with
  | nil => intro idx _ _ _; simp [buildIndex]
  | cons d rest ih =>
      intro idx hproto hnd hfresh
      match d with
      | .wrapper fd => exact absurd (hproto _ (List.mem_cons_self _ _)) (by simp [FDObj.isProto])
      | .proto p =>
          have hcf : dcontains p.name idx = false :=
            hfresh p.name (List.mem_cons_self _ _)
          simp only [buildIndex, FDObj.getName, except_bind_ok, hcf, Bool.false_eq_true,
            if_false]
          rw [List.map_cons, List.nodup_cons] at hnd
          have hfresh' : ∀ n ∈ rest.map FDObj.pname,
              dcontains n (idx ++ [(p.name, FDObj.proto p)]) = false := by
            intro n hn
            rw [dcontains_append, hfresh n (List.mem_cons_of_mem _ hn)]
            have hne : p.name ≠ n := by
              intro he
              refine hnd.1 ?_
              simp only [FDObj.pname]
              rw [he]
              exact hn
            simp [dcontains, dlookup, hne, FDObj.pname]
          have := ih (idx ++ [(p.name, FDObj.proto p)])
            (fun e he => hproto e (List.mem_cons_of_mem _ he)) hnd.2 hfresh'
          rw [this, List.append_assoc]
          rfl

/-- Proto declarations encode without error. -/
theorem encodeFd_ok :
    ∀ fds : List FDObj, (∀ d ∈ fds, d.isProto = true) →
      ∃ ps, mapExcept encodeFd fds = .ok ps := by
  intro fds
  induction fds with
  | nil => intro _; exact ⟨[], rfl⟩
  | cons d rest ih =>
      intro hproto
      match d with
      | .wrapper fd => exact absurd (hproto _ (List.mem_cons_self _ _)) (by simp [FDObj.isProto])
      | .proto p =>
          obtain ⟨ps, hps⟩ := ih (fun e he => hproto e (List.mem_cons_of_mem _ he))
          exact ⟨p :: ps, by simp [mapExcept, encodeFd, hps]⟩

/-- Feeding stored declaration objects back through
`_make_function_declaration` returns them unchanged. -/
theorem mapM_makeFD_inputs :
    ∀ ds : List FDObj, mapExcept makeFunctionDeclaration (ds.map fdObjToInput) = .ok ds := by
  intro ds
  induction ds with
  | nil => rfl
  | cons d rest ih =>
      cases d <;> simp [mapExcept, fdObjToInput, makeFunctionDeclaration, ih]

/-- `Tool` construction on re-injected proto declarations with distinct
names succeeds and stores exactly those declarations. -/
theorem Tool.init_of_protos (ds : List FDObj) (hp : ∀ d ∈ ds, d.isProto = true)
    (hnd : (ds.map FDObj.pname).Nodup) :
    ∃ t, Tool.init (ds.map fdObjToInput) = .ok t ∧ t.function_declarations = ds := by
  have hidx := buildIndex_ok_of ds [] hp hnd (fun n _ => rfl)
  obtain ⟨ps, hps⟩ := encodeFd_ok ds hp
  refine ⟨⟨ds, [] ++ ds.map (fun d => (d.pname, d)), ps⟩, ?_, rfl⟩
  simp [Tool.init, mapM_makeFD_inputs, hidx, hps]

/-- A successfully constructed `Tool` stores only proto declarations with
pairwise distinct names (wrapper declarations make construction raise). -/
theorem Tool.init_ok_decls {inputs : List FDInput} {t : Tool}
    (h : Tool.init inputs = .ok t) :
    (∀ d ∈ t.function_declarations, d.isProto = true) ∧
    (t.function_declarations.map FDObj.pname).Nodup := by
  simp only [Tool.init] at h
  rcases hm : mapExcept makeFunctionDeclaration inputs with e | fds <;> rw [hm] at h
  · simp at h
  · simp only [except_bind_ok] at h
    rcases hb : buildIndex fds [] with e | idx <;> rw [hb] at h
    · simp at h
    · simp only [except_bind_ok] at h
      rcases he : mapExcept encodeFd fds with e | ps <;> rw [he] at h
      · simp at h
      · simp only [except_bind_ok, Except.ok.injEq] at h
        obtain ⟨hproto, _, _, hnd⟩ := buildIndex_ok fds [] idx hb
        rw [← h]
        exact ⟨hproto, hnd⟩

/-- The library's per-tool indexing loop succeeds on fresh, duplicate-free
proto declarations, extending the index in order. -/
theorem libAddDecls_ok :
    ∀ (fds : List FDObj) (idx : List (String × FDObj)),
      (∀ d ∈ fds, d.isProto = true) →
      (fds.map FDObj.pname).Nodup →
      (∀ n ∈ fds.map FDObj.pname, dcontains n idx = false) →
      libAddDecls fds idx = .ok (idx ++ fds.map (fun d => (d.pname, d))) := by
  intro fds
  induction fds with
  | nil => intro idx _ _ _; simp [libAddDecls]
  | cons d rest ih =>
      intro idx hproto hnd hfresh
      match d with
      | .wrapper fd => exact absurd (hproto _ (List.mem_cons_self _ _)) (by simp [FDObj.isProto])
      | .proto p =>
          have hcf : dcontains p.name idx = false :=
            hfresh p.name (List.mem_cons_self _ _)
          simp only [libAddDecls, FDObj.getName, except_bind_ok, hcf, Bool.false_eq_true,
            if_false]
          rw [List.map_cons, List.nodup_cons] at hnd
          have hfresh' : ∀ n ∈ rest.map FDObj.pname,
              dcontains n (idx ++ [(p.name, FDObj.proto p)]) = false := by
            intro n hn
            rw [dcontains_append, hfresh n (List.mem_cons_of_mem _ hn)]
            have hne : p.name ≠ n := by
              intro he
              refine hnd.1 ?_
              simp only [FDObj.pname]
              rw [he]
              exact hn
            simp [dcontains, dlookup, hne, FDObj.pname]
          have := ih (idx ++ [(p.name, FDObj.proto p)])
            (fun e he => hproto e (List.mem_cons_of_mem _ he)) hnd.2 hfresh'
          rw [this, List.append_assoc]
          rfl

/-- When some declaration's name is already indexed, the library loop
raises the descriptive duplicate-name error for the first such name. -/
theorem libAddDecls_collision :
    ∀ (fds : List FDObj) (idx : List (String × FDObj)),
      (∀ d ∈ fds, d.isProto = true) →
      (fds.map FDObj.pname).Nodup →
      (∃ d ∈ fds, dcontains d.pname idx = true) →
      ∃ n, n ∈ fds.map FDObj.pname ∧ dcontains n idx = true ∧
        libAddDecls fds idx = .error (.valueError (libDupMsg n)) := by
  intro fds
  induction fds with
  | nil =>
      intro idx _ _ hex
      obtain ⟨d, hd, _⟩ := hex
      cases hd
  | cons d rest ih =>
      intro idx hproto hnd hex
      match d with
      | .wrapper fd => exact absurd (hproto _ (List.mem_cons_self _ _)) (by simp [FDObj.isProto])
      | .proto p =>
          by_cases hc : dcontains p.name idx = true
          · refine ⟨p.name, by simp [FDObj.pname], hc, ?_⟩
            simp [libAddDecls, FDObj.getName, hc, FDObj.pname]
          · have hcf : dcontains p.name idx = false := by
              cases hcc : dcontains p.name idx
              · rfl
              · exact absurd hcc hc
            rw [List.map_cons, List.nodup_cons] at hnd
            have hex' : ∃ d ∈ rest, dcontains d.pname (idx ++ [(p.name, FDObj.proto p)]) = true := by
              obtain ⟨d0, hd0, hd0c⟩ := hex
              rcases List.mem_cons.mp hd0 with rfl | hd0r
              · exact absurd hd0c (by simp [FDObj.pname, hcf])
              · exact ⟨d0, hd0r, by rw [dcontains_append, hd0c]; rfl⟩
            obtain ⟨n, hn, hnc, herr⟩ := ih (idx ++ [(p.name, FDObj.proto p)])
              (fun e he => hproto e (List.mem_cons_of_mem _ he)) hnd.2 hex'
            have hne : p.name ≠ n := by
              intro he
              refine hnd.1 ?_
              simp only [FDObj.pname]
              rw [he]
              exact hn
            refine ⟨n, List.mem_cons_of_mem _ hn, ?_, ?_⟩
            · rw [dcontains_append] at hnc
              rcases Bool.or_eq_true_iff.mp hnc with h1 | h2
              · exact h1
              · simp [dcontains, dlookup, hne] at h2
            · simp [libAddDecls, FDObj.getName, hcf, herr]

/-- C3 (amended): two constructible `Tool`s sharing a declaration name
always make `FunctionLibrary` construction fail, but the error is the
descriptive one naming the colliding function only when the tools escape
the flattening heuristic (at least one holds more than one declaration);
when both are singletons, `_make_tools` first merges them into one `Tool`
and the failure is `Tool.__init__`'s duplicate-name `ValueError` with an
*empty* message. -/
theorem claim_C3 (l1 l2 : List FDInput) (t1 t2 : Tool)
    (h1 : Tool.init l1 = .ok t1) (h2 : Tool.init l2 = .ok t2)
    (n : String) (hn1 : n ∈ t1.function_declarations.map FDObj.pname)
    (hn2 : n ∈ t2.function_declarations.map FDObj.pname) :
    ((t1.function_declarations.length = 1 ∧ t2.function_declarations.length = 1) →
      FunctionLibrary.init (.list [.tool t1, .tool t2]) = .error (.valueError "")) ∧
    (¬(t1.function_declarations.length = 1 ∧ t2.function_declarations.length = 1) →
      ∃ m pre post, m ∈ t1.function_declarations.map FDObj.pname ∧
        m ∈ t2.function_declarations.map FDObj.pname ∧
        FunctionLibrary.init (.list [.tool t1, .tool t2]) =
          .error (.valueError (libDupMsg m)) ∧
        libDupMsg m = pre ++ m ++ post) := by
  obtain ⟨hp1, hnd1⟩ := Tool.init_ok_decls h1
  obtain ⟨hp2, hnd2⟩ := Tool.init_ok_decls h2
  have hmap : mapExcept makeTool [ToolInput.tool t1, ToolInput.tool t2] = .ok [t1, t2] := rfl
  constructor
  · rintro ⟨hl1, hl2⟩
    obtain ⟨d1, hd1⟩ := List.length_eq_one.mp hl1
    obtain ⟨d2, hd2⟩ := List.length_eq_one.mp hl2
    have hd1n : d1.pname = n := by
      rw [hd1] at hn1
      have hx : n = d1.pname := by simpa using hn1
      exact hx.symm
    have hd2n : d2.pname = n := by
      rw [hd2] at hn2
      have hx : n = d2.pname := by simpa using hn2
      exact hx.symm
    obtain ⟨p1, hp1'⟩ : ∃ p, d1 = FDObj.proto p := by
      have := hp1 d1 (by rw [hd1]; exact List.mem_cons_self _ _)
      cases d1 with
      | wrapper fd => simp [FDObj.isProto] at this
      | proto p => exact ⟨p, rfl⟩
    obtain ⟨p2, hp2'⟩ : ∃ p, d2 = FDObj.proto p := by
      have := hp2 d2 (by rw [hd2]; exact List.mem_cons_self _ _)
      cases d2 with
      | wrapper fd => simp [FDObj.isProto] at this
      | proto p => exact ⟨p, rfl⟩
    have hpn : p2.name = p1.name := by
      have e1 : p1.name = n := by
        rw [hp1'] at hd1n
        exact hd1n
      have e2 : p2.name = n := by
        rw [hp2'] at hd2n
        exact hd2n
      rw [e1, e2]
    have hflat : Tool.init [fdObjToInput d1, fdObjToInput d2] = .error (.valueError "") := by
      rw [hp1', hp2']
      simp [Tool.init, mapExcept, makeFunctionDeclaration, fdObjToInput, buildIndex,
        FDObj.getName, dcontains, dlookup, hpn]
    have hcond : 1 < ([t1, t2] : List Tool).length ∧
        ∀ t ∈ ([t1, t2] : List Tool), t.function_declarations.length = 1 := by
      refine ⟨by simp, ?_⟩
      intro t ht
      rcases List.mem_cons.mp ht with rfl | ht'
      · exact hl1
      · rcases List.mem_cons.mp ht' with rfl | ht''
        · exact hl2
        · cases ht''
    simp only [FunctionLibrary.init, makeTools, hmap, except_bind_ok]
    rw [if_pos hcond]
    simp only [List.filterMap, hd1, hd2, List.head?, Option.map_some']
    rw [show makeTool (.iter [fdObjToInput d1, fdObjToInput d2]) =
      Tool.init [fdObjToInput d1, fdObjToInput d2] from rfl, hflat]
    rfl
  · intro hns
    have hcond : ¬(1 < ([t1, t2] : List Tool).length ∧
        ∀ t ∈ ([t1, t2] : List Tool), t.function_declarations.length = 1) := by
      rintro ⟨_, hall⟩
      exact hns ⟨hall t1 (List.mem_cons_self _ _),
        hall t2 (List.mem_cons_of_mem _ (List.mem_cons_self _ _))⟩
    have hidx1 : libAddDecls t1.function_declarations [] =
        .ok ([] ++ t1.function_declarations.map (fun d => (d.pname, d))) :=
      libAddDecls_ok t1.function_declarations [] hp1 hnd1 (fun m _ => rfl)
    have hex : ∃ d ∈ t2.function_declarations,
        dcontains d.pname ([] ++ t1.function_declarations.map (fun d => (d.pname, d))) = true := by
      obtain ⟨d2, hd2m, hd2n⟩ := List.mem_map.mp hn2
      refine ⟨d2, hd2m, ?_⟩
      rw [List.nil_append, hd2n]
      exact (dcontains_map_names n t1.function_declarations).mpr hn1
    obtain ⟨m, hm2, hmc, herr⟩ := libAddDecls_collision t2.function_declarations
      ([] ++ t1.function_declarations.map (fun d => (d.pname, d))) hp2 hnd2 hex
    have hm1 : m ∈ t1.function_declarations.map FDObj.pname := by
      rw [List.nil_append] at hmc
      exact (dcontains_map_names m t1.function_declarations).mp hmc
    refine ⟨m, "A `FunctionDeclaration` named ",
      " is already defined. Each `FunctionDeclaration` must be uniquely named.",
      hm1, hm2, ?_, rfl⟩
    simp only [FunctionLibrary.init, makeTools, hmap, except_bind_ok]
    rw [if_neg hcond]
    simp only [except_bind_ok, libAddTools, hidx1, herr]
    rfl

/-- Witness for C3, non-flattening side: a two-declaration tool `{f, g}`
and a singleton tool `{f}` collide on `f` with the descriptive error. -/
theorem claim_C3_witness :
    (Tool.init [FDInput.proto ⟨"f", "", none⟩, FDInput.proto ⟨"g", "", none⟩] =
      .ok ⟨[.proto ⟨"f", "", none⟩, .proto ⟨"g", "", none⟩],
           [("f", .proto ⟨"f", "", none⟩), ("g", .proto ⟨"g", "", none⟩)],
           [⟨"f", "", none⟩, ⟨"g", "", none⟩]⟩) ∧
    (Tool.init [FDInput.proto ⟨"f", "", none⟩] =
      .ok ⟨[.proto ⟨"f", "", none⟩], [("f", .proto ⟨"f", "", none⟩)], [⟨"f", "", none⟩]⟩) ∧
    (¬((([.proto ⟨"f", "", none⟩, .proto ⟨"g", "", none⟩] : List FDObj).length = 1) ∧
        (([.proto ⟨"f", "", none⟩] : List FDObj).length = 1)) →
      ∃ m pre post,
        m ∈ ([.proto ⟨"f", "", none⟩, .proto ⟨"g", "", none⟩] : List FDObj).map FDObj.pname ∧
        m ∈ ([.proto ⟨"f", "", none⟩] : List FDObj).map FDObj.pname ∧
        FunctionLibrary.init (.list
          [.tool ⟨[.proto ⟨"f", "", none⟩, .proto ⟨"g", "", none⟩],
                  [("f", .proto ⟨"f", "", none⟩), ("g", .proto ⟨"g", "", none⟩)],
                  [⟨"f", "", none⟩, ⟨"g", "", none⟩]⟩,
           .tool ⟨[.proto ⟨"f", "", none⟩], [("f", .proto ⟨"f", "", none⟩)],
                  [⟨"f", "", none⟩]⟩]) = .error (.valueError (libDupMsg m)) ∧
        libDupMsg m = pre ++ m ++ post) := by
  refine ⟨rfl, rfl, ?_⟩
  exact (claim_C3 [FDInput.proto ⟨"f", "", none⟩, FDInput.proto ⟨"g", "", none⟩]
    [FDInput.proto ⟨"f", "", none⟩]
    ⟨[.proto ⟨"f", "", none⟩, .proto ⟨"g", "", none⟩],
     [("f", .proto ⟨"f", "", none⟩), ("g", .proto ⟨"g", "", none⟩)],
     [⟨"f", "", none⟩, ⟨"g", "", none⟩]⟩
    ⟨[.proto ⟨"f", "", none⟩], [("f", .proto ⟨"f", "", none⟩)], [⟨"f", "", none⟩]⟩
    rfl rfl "f" (by simp [FDObj.pname]) (by simp [FDObj.pname])).2

/-- Counterexample to C3's "descriptive error" part as stated: two
singleton tools both exposing `f` make `FunctionLibrary` construction fail
with `ValueError("")` — an empty message that does not name `f`. -/
theorem claim_C3_counterexample :
    FunctionLibrary.init (.list
        [.tool ⟨[.proto ⟨"f", "", none⟩], [("f", .proto ⟨"f", "", none⟩)], [⟨"f", "", none⟩]⟩,
         .tool ⟨[.proto ⟨"f", "", none⟩], [("f", .proto ⟨"f", "", none⟩)], [⟨"f", "", none⟩]⟩]) =
      .error (.valueError "") ∧
    ¬ ∃ pre post : String, "" = pre ++ "f" ++ post := by
  constructor
  · rfl
  · rintro ⟨pre, post, h⟩
    have hlen := congrArg String.length h
    rw [String.length_append, String.length_append] at hlen
    have h0 : "".length = 0 := rfl
    have hf : "f".length = 1 := rfl
    omega

/-- When every tool is a singleton, the flattening list comprehension
collects exactly the concatenation of all declarations. -/
theorem heads_of_singletons :
    ∀ ts : List Tool, (∀ t ∈ ts, t.function_declarations.length = 1) →
      ts.filterMap (fun t => t.function_declarations.head?.map fdObjToInput) =
        ((ts.map (fun t => t.function_declarations)).flatten).map fdObjToInput := by
  intro ts
  induction ts with
  | nil => intro _; rfl
  | cons t rest ih =>
      intro hsing
      obtain ⟨d, hd⟩ := List.length_eq_one.mp (hsing t (List.mem_cons_self _ _))
      have := ih (fun u hu => hsing u (List.mem_cons_of_mem _ hu))
      simp [List.filterMap_cons, hd, this]

/-- C4 (amended): when more than one input each coerces to a singleton
`Tool` *and their declaration names are pairwise distinct*, `_make_tools`
collapses them into one `Tool` holding all the declarations; with a shared
name the merging `Tool` constructor raises instead (see the
counterexample).  When any coerced tool holds more than one declaration
the tools are kept separate, unchanged. -/
theorem claim_C4 (l : List ToolInput) (ts : List Tool)
    (hco : mapExcept makeTool l = .ok ts) (hlen : 1 < ts.length) :
    ((∀ t ∈ ts, t.function_declarations.length = 1) →
      (∀ t ∈ ts, ∀ d ∈ t.function_declarations, d.isProto = true) →
      ((((ts.map (fun t => t.function_declarations)).flatten).map FDObj.pname).Nodup) →
      ∃ t, makeTools (.list l) = .ok [t] ∧
        t.function_declarations = (ts.map (fun t => t.function_declarations)).flatten) ∧
    ((∃ t ∈ ts, 1 < t.function_declarations.length) → makeTools (.list l) = .ok ts) := by
  constructor
  · intro hsing hwf hnd
    have hp : ∀ d ∈ (ts.map (fun t => t.function_declarations)).flatten, d.isProto = true := by
      intro d hd
      obtain ⟨ld, hld, hdmem⟩ := List.mem_flatten.mp hd
      obtain ⟨t, htmem, rfl⟩ := List.mem_map.mp hld
      exact hwf t htmem d hdmem
    obtain ⟨t, htinit, htdecls⟩ :=
      Tool.init_of_protos ((ts.map (fun t => t.function_declarations)).flatten) hp hnd
    refine ⟨t, ?_, htdecls⟩
    simp only [makeTools, hco, except_bind_ok]
    rw [if_pos ⟨hlen, hsing⟩, heads_of_singletons ts hsing]
    rw [show makeTool (.iter (((ts.map (fun t => t.function_declarations)).flatten).map
      fdObjToInput)) = Tool.init (((ts.map (fun t => t.function_declarations)).flatten).map
        fdObjToInput) from rfl, htinit]
    rfl
  · rintro ⟨t0, ht0, hlen0⟩
    have hcond : ¬(1 < ts.length ∧ ∀ t ∈ ts, t.function_declarations.length = 1) := by
      rintro ⟨_, hall⟩
      have := hall t0 ht0
      omega
    simp only [makeTools, hco, except_bind_ok]
    rw [if_neg hcond]

/-- Witness for C4 at two distinct single-function wire tools `{f}`, `{g}`:
they collapse into one tool holding both declarations. -/
theorem claim_C4_witness :
    (mapExcept makeTool
        [ToolInput.glmTool ⟨[⟨"f", "", none⟩]⟩, ToolInput.glmTool ⟨[⟨"g", "", none⟩]⟩] =
      .ok [⟨[.proto ⟨"f", "", none⟩], [("f", .proto ⟨"f", "", none⟩)], [⟨"f", "", none⟩]⟩,
           ⟨[.proto ⟨"g", "", none⟩], [("g", .proto ⟨"g", "", none⟩)], [⟨"g", "", none⟩]⟩]) ∧
    (∃ t, makeTools (.list
        [ToolInput.glmTool ⟨[⟨"f", "", none⟩]⟩, ToolInput.glmTool ⟨[⟨"g", "", none⟩]⟩]) =
          .ok [t] ∧
      t.function_declarations =
        ((([⟨[.proto ⟨"f", "", none⟩], [("f", .proto ⟨"f", "", none⟩)], [⟨"f", "", none⟩]⟩,
            ⟨[.proto ⟨"g", "", none⟩], [("g", .proto ⟨"g", "", none⟩)], [⟨"g", "", none⟩]⟩] :
          List Tool).map (fun t => t.function_declarations)).flatten)) := by
  refine ⟨rfl, ?_⟩
  exact (claim_C4
    [ToolInput.glmTool ⟨[⟨"f", "", none⟩]⟩, ToolInput.glmTool ⟨[⟨"g", "", none⟩]⟩]
    [⟨[.proto ⟨"f", "", none⟩], [("f", .proto ⟨"f", "", none⟩)], [⟨"f", "", none⟩]⟩,
     ⟨[.proto ⟨"g", "", none⟩], [("g", .proto ⟨"g", "", none⟩)], [⟨"g", "", none⟩]⟩]
    rfl (by decide)).1
    (by intro t ht; fin_cases ht <;> rfl)
    (by intro t ht; fin_cases ht <;> (intro d hd; fin_cases hd <;> rfl))
    (by decide)

/-- Counterexample to C4 as stated: two single-function tools *sharing* the
name `f` do not collapse into one tool — `_make_tools` raises the
duplicate-name `ValueError` from the merging `Tool` constructor. -/
theorem claim_C4_counterexample :
    makeTools (.list
        [ToolInput.glmTool ⟨[⟨"f", "", none⟩]⟩, ToolInput.glmTool ⟨[⟨"f", "", none⟩]⟩]) =
      .error (.valueError "") ∧
    ¬ ∃ t, makeTools (.list
        [ToolInput.glmTool ⟨[⟨"f", "", none⟩]⟩, ToolInput.glmTool ⟨[⟨"f", "", none⟩]⟩]) =
      .ok [t] := by
  refine ⟨rfl, ?_⟩
  rintro ⟨t, ht⟩
  rw [show makeTools (.list
      [ToolInput.glmTool ⟨[⟨"f", "", none⟩]⟩, ToolInput.glmTool ⟨[⟨"f", "", none⟩]⟩]) =
    .error (.valueError "") from rfl] at ht
  cases ht

/-- C9: `"MODE_ANY"` (case-insensitively) and the integer `2` resolve to
the same `ANY` mode, and every string that is not, after lower-casing,
one of the six recognized aliases fails with a `KeyError`. -/
theorem claim_C9 :
    to_function_calling_mode (.str "MODE_ANY") = .ok .ANY ∧
    to_function_calling_mode (.int 2) = .ok .ANY ∧
    ∀ s : String,
      pyLower s ∉ (["auto", "any", "none", "mode_auto", "mode_any", "mode_none"] :
        List String) →
      to_function_calling_mode (.str s) = .error (.keyError (pyLower s)) := by
  refine ⟨rfl, rfl, ?_⟩
  intro s hs
  simp only [List.mem_cons, not_or] at hs
  obtain ⟨h1, h2, h3, h4, h5, h6, _⟩ := hs
  simp only [to_function_calling_mode, functionCallingModeTable, klookup]
  simp [PyKey.str.injEq, fun h : pyLower s = "mode_auto" => h4 h,
    fun h : pyLower s = "auto" => h1 h, fun h : pyLower s = "mode_any" => h5 h,
    fun h : pyLower s = "any" => h2 h, fun h : pyLower s = "mode_none" => h6 h,
    fun h : pyLower s = "none" => h3 h, Ne.symm h1, Ne.symm h2, Ne.symm h3,
    Ne.symm h4, Ne.symm h5, Ne.symm h6]

/-- Witness for C9 at the unrecognized string `"bogus"`. -/
theorem claim_C9_witness :
    (pyLower "bogus" ∉ (["auto", "any", "none", "mode_auto", "mode_any", "mode_none"] :
      List String)) ∧
    to_function_calling_mode (.str "bogus") = .error (.keyError (pyLower "bogus")) :=
  ⟨by decide, claim_C9.2.2 "bogus" (by decide)⟩

theorem extendsAt_refl {n0 : Nat} {h : Heap} (hle : n0 ≤ h.cells.length) :
    ExtendsAt n0 h h :=
  ⟨fun _ _ => rfl, hle⟩

theorem extendsAt_trans {n0 : Nat} {h h' h'' : Heap}
    (h1 : ExtendsAt n0 h h') (h2 : ExtendsAt n0 h' h'') : ExtendsAt n0 h h'' :=
  ⟨fun i hi => (h2.1 i hi).trans (h1.1 i hi), h2.2⟩

theorem extendsAt_mono {n0 n1 : Nat} {h h' : Heap} (hle : n1 ≤ n0)
    (he : ExtendsAt n0 h h') : ExtendsAt n1 h h' :=
  ⟨fun i hi => he.1 i (lt_of_lt_of_le hi hle), le_trans hle he.2⟩

theorem extendsAt_alloc {n0 : Nat} {h : Heap} (hle : n0 ≤ h.cells.length)
    (kvs : List (String × PyVal)) : ExtendsAt n0 h (h.alloc kvs).1 := by
  refine ⟨fun i hi => ?_, ?_⟩
  · exact List.getElem?_append_left (lt_of_lt_of_le hi hle)
  · simp [Heap.alloc]
    omega

theorem extendsAt_write {n0 : Nat} {h : Heap} {a : Nat} (hle : n0 ≤ h.cells.length)
    (ha : n0 ≤ a) (kvs : List (String × PyVal)) : ExtendsAt n0 h (h.write a kvs) := by
  refine ⟨fun i hi => ?_, ?_⟩
  · exact List.getElem?_set_ne (by omega)
  · simp [Heap.write]
    omega

theorem extendsAt_hset {n0 : Nat} {h : Heap} {a : Nat} (hle : n0 ≤ h.cells.length)
    (ha : n0 ≤ a) (k : String) (v : PyVal) : ExtendsAt n0 h (h.hset a k v) := by
  unfold Heap.hset
  match hl : h.lookup a with
  | Option.none => exact extendsAt_refl hle
  | some kvs => exact extendsAt_write hle ha _

theorem extendsAt_hpop {n0 : Nat} {h : Heap} {a : Nat} (hle : n0 ≤ h.cells.length)
    (ha : n0 ≤ a) (k : String) : ExtendsAt n0 h (h.hpop a k).2 := by
  unfold Heap.hpop
  match hl : h.lookup a with
  | Option.none => exact extendsAt_refl hle
  | some kvs => exact extendsAt_write hle ha _

theorem hpop_length {h : Heap} {a : Nat} {k : String} :
    (h.hpop a k).2.cells.length = h.cells.length := by
  unfold Heap.hpop
  match hl : h.lookup a with
  | Option.none => rfl
  | some kvs => simp [Heap.write]

theorem hset_length {h : Heap} {a : Nat} {k : String} {v : PyVal} :
    (h.hset a k v).cells.length = h.cells.length := by
  unfold Heap.hset
  match hl : h.lookup a with
  | Option.none => rfl
  | some kvs => simp [Heap.write]

theorem renameStepType_frame {n0 a' : Nat} {h h2 : Heap}
    (hs : renameStepType a' h = some h2)
    (hle : n0 ≤ h.cells.length) (ha : n0 ≤ a') : ExtendsAt n0 h h2 := by
  have base : ExtendsAt n0 h (h.hpop a' "type").2 := extendsAt_hpop hle ha _
  have hlen2 : n0 ≤ (h.hpop a' "type").2.cells.length := by
    rw [hpop_length]
    exact hle
  unfold renameStepType at hs
  rcases ht : (h.hpop a' "type").1 with _ | tv <;> rw [ht] at hs
  · cases hs
    exact base
  · cases tv with
    | none =>
        cases hs
        exact base
    | str u =>
        cases hs
        exact extendsAt_trans base (extendsAt_hset hlen2 ha _ _)
    | bool b => cases hs
    | int m => cases hs
    | mode m => cases hs
    | list xs => cases hs
    | ref b => cases hs

theorem renameStepFormat_frame {n0 a' : Nat} {h : Heap}
    (hle : n0 ≤ h.cells.length) (ha : n0 ≤ a') : ExtendsAt n0 h (renameStepFormat a' h) := by
  have base : ExtendsAt n0 h (h.hpop a' "format").2 := extendsAt_hpop hle ha _
  have hlen2 : n0 ≤ (h.hpop a' "format").2.cells.length := by
    rw [hpop_length]
    exact hle
  unfold renameStepFormat
  rcases ht : (h.hpop a' "format").1 with _ | fv
  · exact base
  · cases fv <;>
      first
      | exact base
      | exact extendsAt_trans base (extendsAt_hset hlen2 ha _ _)

theorem renameStepItems_frame {n0 a' : Nat} {h h4 : Heap}
    {rec : Heap → PyVal → Option (Heap × PyVal)}
    (hrec : ∀ h v h' v', rec h v = some (h', v') → ExtendsAt h.cells.length h h')
    (hs : renameStepItems rec a' h = some h4)
    (hle : n0 ≤ h.cells.length) (ha : n0 ≤ a') : ExtendsAt n0 h h4 := by
  have base : ExtendsAt n0 h (h.hpop a' "items").2 := extendsAt_hpop hle ha _
  have hlen2 : n0 ≤ (h.hpop a' "items").2.cells.length := by
    rw [hpop_length]
    exact hle
  have key : ∀ iv' : PyVal,
      ((rec (h.hpop a' "items").2 iv').bind
        (fun p => some ((p.1).hset a' "items" p.2)) = some h4) →
      ExtendsAt n0 h h4 := by
    intro iv' hdo
    rcases hx : rec (h.hpop a' "items").2 iv' with _ | ⟨h', r⟩ <;> rw [hx] at hdo
    · cases hdo
    · simp only [Option.some_bind, Option.some.injEq] at hdo
      have e1 : ExtendsAt n0 (h.hpop a' "items").2 h' :=
        extendsAt_mono hlen2 (hrec _ _ _ _ hx)
      have e2 : ExtendsAt n0 h' (h'.hset a' "items" r) :=
        extendsAt_hset (le_trans hlen2 (hrec _ _ _ _ hx).2) ha _ _
      rw [← hdo]
      exact extendsAt_trans base (extendsAt_trans e1 e2)
  unfold renameStepItems at hs
  rcases ht : (h.hpop a' "items").1 with _ | iv <;> rw [ht] at hs
  · cases hs
    exact base
  · match iv, hs with
    | .none, hs =>
        cases hs
        exact base
    | .bool b, hs => exact key (.bool b) hs
    | .int m, hs => exact key (.int m) hs
    | .str u, hs => exact key (.str u) hs
    | .mode m, hs => exact key (.mode m) hs
    | .list xs, hs => exact key (.list xs) hs
    | .ref b, hs => exact key (.ref b) hs

theorem renameVals_frame {rec : Heap → PyVal → Option (Heap × PyVal)}
    (hrec : ∀ h v h' v', rec h v = some (h', v') → ExtendsAt h.cells.length h h') :
    ∀ (l : List (String × PyVal)) (h h' : Heap) (l' : List (String × PyVal)),
      renameVals rec h l = some (h', l') → ExtendsAt h.cells.length h h' := by
  intro l
  induction l with
  | nil =>
      intro h h' l' hv
      cases hv
      exact extendsAt_refl le_rfl
  | cons kv rest ih =>
      intro h h' l' hv
      obtain ⟨k, v⟩ := kv
      simp only [renameVals, Option.bind_eq_bind, Option.bind_eq_some] at hv
      obtain ⟨⟨h1, v1⟩, hv1, ⟨h2, l2⟩, hv2, heq⟩ := hv
      simp only [Option.some.injEq, Prod.mk.injEq] at heq
      have e1 : ExtendsAt h.cells.length h h1 := hrec _ _ _ _ hv1
      have e2 : ExtendsAt h.cells.length h1 h2 := extendsAt_mono e1.2 (ih h1 h2 l2 hv2)
      rw [← heq.1]
      exact extendsAt_trans e1 e2

theorem renameStepProps_frame {n0 a' : Nat} {h h5 : Heap}
    {rec : Heap → PyVal → Option (Heap × PyVal)}
    (hrec : ∀ h v h' v', rec h v = some (h', v') → ExtendsAt h.cells.length h h')
    (hs : renameStepProps rec a' h = some h5)
    (hle : n0 ≤ h.cells.length) (ha : n0 ≤ a') : ExtendsAt n0 h h5 := by
  have base : ExtendsAt n0 h (h.hpop a' "properties").2 := extendsAt_hpop hle ha _
  have hlen2 : n0 ≤ (h.hpop a' "properties").2.cells.length := by
    rw [hpop_length]
    exact hle
  unfold renameStepProps at hs
  rcases ht : (h.hpop a' "properties").1 with _ | pv <;> rw [ht] at hs
  · cases hs
    exact base
  · match pv, hs with
    | .none, hs =>
        cases hs
        exact base
    | .bool b, hs | .int m, hs | .str u, hs | .mode m, hs | .list xs, hs => cases hs
    | .ref ap, hs =>
        have hs' : (((h.hpop a' "properties").2).lookup ap).bind (fun pkvs =>
            (renameVals rec (h.hpop a' "properties").2 pkvs).bind (fun p =>
              some (((p.1.alloc p.2).1).hset a' "properties" (.ref (p.1.alloc p.2).2)))) =
            some h5 := hs
        rcases hlk : ((h.hpop a' "properties").2).lookup ap with _ | pkvs <;> rw [hlk] at hs'
        · cases hs'
        · simp only [Option.some_bind] at hs'
          rcases hrv : renameVals rec (h.hpop a' "properties").2 pkvs with _ | ⟨h', pk⟩ <;>
            rw [hrv] at hs'
          · cases hs'
          · simp only [Option.some_bind, Option.some.injEq] at hs'
            have e1 : ExtendsAt n0 (h.hpop a' "properties").2 h' :=
              extendsAt_mono hlen2 (renameVals_frame hrec pkvs _ h' pk hrv)
            have hlh' : n0 ≤ h'.cells.length :=
              le_trans hlen2 (renameVals_frame hrec pkvs _ h' pk hrv).2
            have e2 : ExtendsAt n0 h' (h'.alloc pk).1 := extendsAt_alloc hlh' pk
            have e3 : ExtendsAt n0 (h'.alloc pk).1
                (((h'.alloc pk).1).hset a' "properties" (.ref (h'.alloc pk).2)) :=
              extendsAt_hset e2.2 ha _ _
            rw [← hs']
            exact extendsAt_trans base (extendsAt_trans e1 (extendsAt_trans e2 e3))

/-- The heap renamer never disturbs a pre-existing cell and returns either
`None` or a reference to a freshly allocated dict. -/
theorem renameH_frame :
    ∀ (n : Nat) (h : Heap) (v : PyVal) (h' : Heap) (v' : PyVal),
      renameH n h v = some (h', v') →
      ExtendsAt h.cells.length h h' ∧
        (v' = .none ∨ ∃ a', v' = .ref a' ∧ h.cells.length ≤ a') := by
  intro n
  induction n with
  | zero =>
      intro h v h' v' hr
      simp [renameH] at hr
  | succ n ih =>
      intro h v h' v' hr
      have hrec : ∀ h v h' v', renameH n h v = some (h', v') → ExtendsAt h.cells.length h h' :=
        fun h v h' v' hx => (ih h v h' v' hx).1
      cases v with
      | none =>
          simp only [renameH, Option.some.injEq, Prod.mk.injEq] at hr
          rw [← hr.1, ← hr.2]
          exact ⟨extendsAt_refl le_rfl, Or.inl rfl⟩
      | bool b => simp [renameH] at hr
      | int m => simp [renameH] at hr
      | str u => simp [renameH] at hr
      | mode m => simp [renameH] at hr
      | list xs => simp [renameH] at hr
      | ref a =>
          simp only [renameH, Option.bind_eq_bind, Option.bind_eq_some] at hr
          obtain ⟨kvs0, hl, hr⟩ := hr
          obtain ⟨h2, hs2, hr⟩ := hr
          obtain ⟨h4, hs4, hr⟩ := hr
          obtain ⟨h5, hs5, hr⟩ := hr
          simp only [Option.some.injEq, Prod.mk.injEq] at hr
          have haN : (h.alloc kvs0).2 = h.cells.length := rfl
          have e0 : ExtendsAt h.cells.length h (h.alloc kvs0).1 :=
            extendsAt_alloc le_rfl kvs0
          have e1 : ExtendsAt h.cells.length (h.alloc kvs0).1 h2 :=
            renameStepType_frame hs2 e0.2 (le_of_eq haN.symm)
          have e2 : ExtendsAt h.cells.length h2 (renameStepFormat (h.alloc kvs0).2 h2) :=
            renameStepFormat_frame e1.2 (le_of_eq haN.symm)
          have e3 : ExtendsAt h.cells.length (renameStepFormat (h.alloc kvs0).2 h2) h4 :=
            renameStepItems_frame hrec hs4 e2.2 (le_of_eq haN.symm)
          have e4 : ExtendsAt h.cells.length h4 h5 :=
            renameStepProps_frame hrec hs5 e3.2 (le_of_eq haN.symm)
          rw [← hr.1]
          refine ⟨extendsAt_trans e0 (extendsAt_trans e1 (extendsAt_trans e2
            (extendsAt_trans e3 e4))), Or.inr ⟨(h.alloc kvs0).2, hr.2.symm, le_of_eq haN.symm⟩⟩

/-- C8: `_rename_schema_fields` leaves its input unchanged — every dict
cell that existed before the call (the input schema and all of its nested
sub-schemas) holds exactly its original keys and values afterwards, and a
successful result is `None` or a reference to a *freshly allocated* copy. -/
theorem claim_C8 (fuel : Nat) (h : Heap) (v : PyVal) (h' : Heap) (v' : PyVal)
    (hr : renameH fuel h v = some (h', v')) :
    (∀ i, i < h.cells.length → h'.cells[i]? = h.cells[i]?) ∧
    (v' = .none ∨ ∃ a, v' = .ref a ∧ h.cells.length ≤ a) :=
  ⟨(renameH_frame fuel h v h' v' hr).1.1, (renameH_frame fuel h v h' v' hr).2⟩

/-- Witness for C8: renaming `{"type": "object"}` in a one-cell heap
allocates the renamed copy at address 1 and leaves cell 0 untouched. -/
theorem claim_C8_witness :
    renameH 3 ⟨[[("type", PyVal.str "object")]]⟩ (.ref 0) =
      some (⟨[[("type", PyVal.str "object")], [("type_", PyVal.str "OBJECT")]]⟩, .ref 1) ∧
    ((∀ i, i < (Heap.mk [[("type", PyVal.str "object")]]).cells.length →
        (Heap.mk [[("type", PyVal.str "object")], [("type_", PyVal.str "OBJECT")]]).cells[i]? =
          (Heap.mk [[("type", PyVal.str "object")]]).cells[i]?) ∧
      ((PyVal.ref 1) = .none ∨ ∃ a, (PyVal.ref 1) = .ref a ∧
        (Heap.mk [[("type", PyVal.str "object")]]).cells.length ≤ a)) :=
  ⟨by rfl, claim_C8 3 ⟨[[("type", PyVal.str "object")]]⟩ (.ref 0)
    ⟨[[("type", PyVal.str "object")], [("type_", PyVal.str "OBJECT")]]⟩ (.ref 1) (by rfl)⟩

/-- C10: coercing a dict with a `"mode"` key to a `FunctionCallingConfig`
does not mutate the dict: it operates on a copy, so after the call the
dict still holds its original, uncoerced mode value and every other entry
unchanged (as does every other pre-existing object). -/
theorem claim_C10 (h : Heap) (a : Nat) (kvs : List (String × PyVal))
    (hcell : h.lookup a = some kvs) (hmode : dcontains "mode" kvs = true)
    (h' : Heap) (cfg : GlmFunctionCallingConfig)
    (hrun : to_function_calling_config h (.dict a) = .ok (h', cfg)) :
    h'.lookup a = some kvs ∧
    ∀ i, i < h.cells.length → h'.cells[i]? = h.cells[i]? := by
  have halen : a < h.cells.length := by
    by_contra hge
    rw [Heap.lookup, List.getElem?_eq_none (by omega)] at hcell
    cases hcell
  have haN : (h.alloc kvs).2 = h.cells.length := rfl
  simp only [to_function_calling_config] at hrun
  rw [hcell] at hrun
  simp only [Option.getD_some] at hrun
  have hext : ExtendsAt h.cells.length h h' := by
    have e0 : ExtendsAt h.cells.length h (h.alloc kvs).1 := extendsAt_alloc le_rfl kvs
    rcases hm : ((h.alloc kvs).1.hpop (h.alloc kvs).2 "mode").1 with _ | mv <;> rw [hm] at hrun
    · cases hrun
    · have hrun' : (pyValToFCM mv >>= fun x =>
          to_function_calling_mode x >>= fun m =>
          glmFCCofDict ((((((h.alloc kvs).1.hpop (h.alloc kvs).2 "mode").2).hset
            (h.alloc kvs).2 "mode" (.mode m)).lookup (h.alloc kvs).2).getD []) >>= fun cfg' =>
          Except.ok (((h.alloc kvs).1.hpop (h.alloc kvs).2 "mode").2.hset
            (h.alloc kvs).2 "mode" (.mode m), cfg')) = Except.ok (h', cfg) := hrun
      clear hrun
      rcases hx : pyValToFCM mv with e | x <;> rw [hx] at hrun'
      · cases hrun'
      · simp only [except_bind_ok] at hrun'
        rcases hmm : to_function_calling_mode x with e | m <;> rw [hmm] at hrun'
        · cases hrun'
        · simp only [except_bind_ok] at hrun'
          rcases hcf : glmFCCofDict
              ((((((h.alloc kvs).1.hpop (h.alloc kvs).2 "mode").2).hset (h.alloc kvs).2 "mode"
                (.mode m)).lookup (h.alloc kvs).2).getD []) with e | cfg' <;> rw [hcf] at hrun'
          · cases hrun'
          · simp only [except_bind_ok, Except.ok.injEq, Prod.mk.injEq] at hrun' 
            have e1 : ExtendsAt h.cells.length (h.alloc kvs).1
                ((h.alloc kvs).1.hpop (h.alloc kvs).2 "mode").2 :=
              extendsAt_hpop e0.2 (le_of_eq haN.symm) _
            have e2 : ExtendsAt h.cells.length
                ((h.alloc kvs).1.hpop (h.alloc kvs).2 "mode").2
                ((((h.alloc kvs).1.hpop (h.alloc kvs).2 "mode").2).hset (h.alloc kvs).2 "mode"
                  (.mode m)) :=
              extendsAt_hset e1.2 (le_of_eq haN.symm) _ _
            rw [← hrun'.1]
            exact extendsAt_trans e0 (extendsAt_trans e1 e2)
  refine ⟨?_, fun i hi => hext.1 i hi⟩
  rw [Heap.lookup, hext.1 a halen]
  exact hcell

/-- Witness for C10: coercing `{"mode": "any", "allowed_function_names": ["f"]}`
leaves the original dict cell intact. -/
theorem claim_C10_witness :
    (Heap.lookup ⟨[[("mode", PyVal.str "any"), ("allowed_function_names",
        PyVal.list [PyVal.str "f"])]]⟩ 0 =
      some [("mode", PyVal.str "any"),
            ("allowed_function_names", PyVal.list [PyVal.str "f"])]) ∧
    (to_function_calling_config
        ⟨[[("mode", PyVal.str "any"), ("allowed_function_names",
          PyVal.list [PyVal.str "f"])]]⟩ (.dict 0) =
      .ok (⟨[[("mode", PyVal.str "any"), ("allowed_function_names",
          PyVal.list [PyVal.str "f"])],
        [("allowed_function_names", PyVal.list [PyVal.str "f"]),
          ("mode", PyVal.mode .ANY)]]⟩, ⟨.ANY, ["f"]⟩)) ∧
    (Heap.lookup ⟨[[("mode", PyVal.str "any"), ("allowed_function_names",
        PyVal.list [PyVal.str "f"])],
      [("allowed_function_names", PyVal.list [PyVal.str "f"]),
        ("mode", PyVal.mode .ANY)]]⟩ 0 =
      some [("mode", PyVal.str "any"),
            ("allowed_function_names", PyVal.list [PyVal.str "f"])]) := by
  refine ⟨rfl, by rfl, ?_⟩
  exact (claim_C10
    ⟨[[("mode", PyVal.str "any"),
       ("allowed_function_names", PyVal.list [PyVal.str "f"])]]⟩ 0
    [("mode", PyVal.str "any"), ("allowed_function_names", PyVal.list [PyVal.str "f"])]
    rfl (by rfl)
    ⟨[[("mode", PyVal.str "any"), ("allowed_function_names", PyVal.list [PyVal.str "f"])],
      [("allowed_function_names", PyVal.list [PyVal.str "f"]),
        ("mode", PyVal.mode .ANY)]]⟩
    ⟨.ANY, ["f"]⟩ (by rfl)).1

end Responder
